import Mathlib

/-!
# Top-down hitscan shooter: the simulation core of `main.cpp`

The C++ program computes with `float`.  The file holds two embeddings of it.

* The exact embedding replaces `float` by an arbitrary linearly ordered field `K`
  with exact arithmetic and takes the square root `std::sqrt` as a parameter
  `sqrt : K → K`; theorems that need the square root to be a square root are
  stated over `ℝ` with `Real.sqrt`.  It has no rounding and no overflow.  The one
  IEEE behaviour it keeps is the quotient by a zero divisor, because
  `ray_vs_circle` divides by `2*a` without a guard.  It carries the properties of
  the algorithms: list structure, comparisons, and arithmetic stated over exact
  reals.
* The binary32 embedding (`F32`, namespace `B32`) evaluates the arithmetic of the
  same source lines as IEEE binary32 does, every operation rounded to nearest,
  ties to even, with subnormals, overflow to infinity and NaN.  It shows where a
  property of the exact algorithm is lost to rounding, underflow or overflow.
-/

namespace TopDownShooter

/-! ## Simple math helpers -/

/-- Vec2 of the source: a pair of coordinates. -/
structure Vec2 (K : Type) where
  x : K
  y : K

variable {K : Type} [LinearOrderedField K]

/-- Source: `Vec2 operator+(const Vec2&o)const{return{ x+o.x, y+o.y };}` -/
def Vec2.add (v o : Vec2 K) : Vec2 K := ⟨v.x + o.x, v.y + o.y⟩

/-- Source: `Vec2 operator-(const Vec2&o)const{return{ x-o.x, y-o.y };}` -/
def Vec2.sub (v o : Vec2 K) : Vec2 K := ⟨v.x - o.x, v.y - o.y⟩

/-- Source: `Vec2 operator*(float s)const{return{ x*s, y*s };}` -/
def Vec2.scale (v : Vec2 K) (s : K) : Vec2 K := ⟨v.x * s, v.y * s⟩

instance : Add (Vec2 K) := ⟨Vec2.add⟩

instance : Sub (Vec2 K) := ⟨Vec2.sub⟩

instance : HMul (Vec2 K) K (Vec2 K) := ⟨Vec2.scale⟩

/-- Source: `float length(const Vec2 &v){return std::sqrt(v.x*v.x+v.y*v.y);}` -/
def length (sqrt : K → K) (v : Vec2 K) : K := sqrt (v.x * v.x + v.y * v.y)

/-- Source: `normalize`: the zero-length vector is mapped to `{0,0}`, every other
vector is divided by its length. -/
def normalize (sqrt : K → K) (v : Vec2 K) : Vec2 K :=
  let l := length sqrt v
  if l = 0 then ⟨0, 0⟩ else ⟨v.x / l, v.y / l⟩

/-! ## Quotients with a possibly zero divisor -/

/-- Value of a `float` that results from an unguarded division: a finite number,
one of the two infinities, or NaN. -/
inductive FVal (K : Type) where
  | fin (v : K) : FVal K
  | posInf : FVal K
  | negInf : FVal K
  | nan : FVal K

/-- IEEE quotient `x / y` for a divisor `y` that is a finite number or `+0`:
`0/0` is NaN, `x/0` is the infinity with the sign of `x`.  (In `ray_vs_circle`
the divisor is `2*a` with `a` a sum of two squares, so a zero divisor is `+0`.) -/
def fdiv (x y : K) : FVal K :=
  if y = 0 then
    if x = 0 then FVal.nan else if 0 < x then FVal.posInf else FVal.negInf
  else FVal.fin (x / y)

/-- The comparison `t >= 0` on a float value; false on NaN. -/
def FVal.ge0 : FVal K → Bool
  | FVal.fin v => decide (0 ≤ v)
  | FVal.posInf => true
  | FVal.negInf => false
  | FVal.nan => false

/-- The comparison `t < u` on float values; false as soon as one side is NaN. -/
def FVal.lt : FVal K → FVal K → Bool
  | FVal.fin v, FVal.fin w => decide (v < w)
  | FVal.fin _, FVal.posInf => true
  | FVal.negInf, FVal.fin _ => true
  | FVal.negInf, FVal.posInf => true
  | _, _ => false

/-! ## Ray (p + t*d, t >= 0) vs circle -/

/-- Source: `ray_vs_circle` (lines 48-64): the intersection parameter `t`, or
`-1` if there is none. -/
def ray_vs_circle (sqrt : K → K) (p d c : Vec2 K) (r : K) : FVal K :=
  let dx := d.x
  let dy := d.y
  let fx := p.x - c.x
  let fy := p.y - c.y
  let a := dx * dx + dy * dy
  let b := 2 * (dx * fx + dy * fy)
  let cterm := fx * fx + fy * fy - r * r
  let disc := b * b - 4 * a * cterm
  if disc < 0 then FVal.fin (-1)
  else
    let disc := sqrt disc
    let t1 := fdiv (-b - disc) (2 * a)
    let t2 := fdiv (-b + disc) (2 * a)
    if t1.ge0 then t1 else if t2.ge0 then t2 else FVal.fin (-1)

/-! ## Game objects and globals -/

/-- Enemy of the source: position, radius and hit points. -/
structure Enemy (K : Type) where
  pos : Vec2 K
  radius : K
  hp : K

/-- Source: the constructor `Enemy(Vec2 p):pos(p),radius(18.0f),hp(1.0f){}`. -/
def Enemy.new (p : Vec2 K) : Enemy K := ⟨p, 18, 1⟩

/-- Player of the source: position, radius and speed. -/
structure Player (K : Type) where
  pos : Vec2 K
  radius : K
  speed : K

/-- Source: the constructor `Player():pos{400,300},radius(12.0f),speed(280.0f){}`. -/
def Player.new : Player K := ⟨⟨400, 300⟩, 12, 280⟩

/-- Source: `int WINDOW_W = 800;` (never assigned afterwards). -/
def WINDOW_W : Nat := 800

/-- Source: `int WINDOW_H = 600;` (never assigned afterwards). -/
def WINDOW_H : Nat := 600

/-- The mutable globals the simulation reads and writes: `player`, `enemies`,
`fireCooldown`, and the position in the sequence of values `std::rand()` returns
(`randCalls` is the number of calls made so far). -/
structure Game (K : Type) where
  player : Player K
  enemies : List (Enemy K)
  fireCooldown : K
  randCalls : Nat

/-- What one iteration of the main loop reads from the host: the four keys, the
globals `mouseLeftDown`, `mouseX`, `mouseY` set by the callbacks, and the frame
time `dt`. -/
structure Input (K : Type) where
  keyW : Bool
  keyS : Bool
  keyA : Bool
  keyD : Bool
  mouseLeftDown : Bool
  mouseX : K
  mouseY : K
  dt : K

/-! ## Spawn helper -/

/-- Source: `spawnEnemy` (lines 67-71).  `rand k` is the value of the `k`-th call
of `std::rand()`, a non-negative `int`. -/
def spawnEnemy (rand : Nat → Nat) (g : Game K) : Game K :=
  let x : K := ((rand g.randCalls % WINDOW_W : Nat) : K)
  let y : K := ((rand (g.randCalls + 1) % WINDOW_H : Nat) : K)
  { g with enemies := g.enemies ++ [Enemy.new ⟨x, y⟩], randCalls := g.randCalls + 2 }

/-- Source: `for(int i=0;i<6;i++) spawnEnemy();` before the main loop, written
for any number of iterations. -/
def spawnMany (rand : Nat → Nat) : Nat → Game K → Game K
  | 0, g => g
  | n + 1, g => spawnMany rand n (spawnEnemy rand g)

/-- The globals when the main loop is entered. -/
def initGame (rand : Nat → Nat) : Game K :=
  spawnMany rand 6 ⟨Player.new, [], 0, 0⟩

/-! ## The main loop body (lines 137-185) -/

/-- Source lines 138-143: the vector `v(vx, vy)` built from the WASD keys. -/
def moveIntent (inp : Input K) : Vec2 K :=
  let vx : K := 0
  let vy : K := 0
  let vy := if inp.keyW then vy - 1 else vy
  let vy := if inp.keyS then vy + 1 else vy
  let vx := if inp.keyA then vx - 1 else vx
  let vx := if inp.keyD then vx + 1 else vx
  ⟨vx, vy⟩

/-- Source lines 148-151: the four clamping statements. -/
def clampToWindow (pos : Vec2 K) : Vec2 K :=
  let pos := if pos.x < 0 then { pos with x := 0 } else pos
  let pos := if pos.y < 0 then { pos with y := 0 } else pos
  let pos := if pos.x > (WINDOW_W : K) then { pos with x := (WINDOW_W : K) } else pos
  let pos := if pos.y > (WINDOW_H : K) then { pos with y := (WINDOW_H : K) } else pos
  pos

/-- Source lines 144-145: the displacement `v * (player.speed * dt)`. -/
def moveDelta (sqrt : K → K) (inp : Input K) (speed : K) : Vec2 K :=
  let v := moveIntent inp
  let v := if length sqrt v > 0.0001 then normalize sqrt v else v
  v * (speed * inp.dt)

/-- Source lines 138-151: player movement and clamping. -/
def movePhase (sqrt : K → K) (inp : Input K) (g : Game K) : Game K :=
  let pos := g.player.pos + moveDelta sqrt inp g.player.speed
  { g with player := { g.player with pos := clampToWindow pos } }

/-- Source lines 155-156: the body of the steering loop for one enemy. -/
def steerEnemy (sqrt : K → K) (playerPos : Vec2 K) (dt : K) (e : Enemy K) : Enemy K :=
  let dir := normalize sqrt (playerPos - e.pos)
  { e with pos := e.pos + dir * (60 * dt) }

/-- Source lines 154-157: every enemy moves toward the player. -/
def steerPhase (sqrt : K → K) (inp : Input K) (g : Game K) : Game K :=
  { g with enemies := g.enemies.map (steerEnemy sqrt g.player.pos inp.dt) }

/-- Source line 160: `if(fireCooldown > 0) fireCooldown -= dt;` -/
def coolDown (cd dt : K) : K := if cd > 0 then cd - dt else cd

/-- The condition of line 161, evaluated after line 160: a shot is fired in this
frame. -/
def shotFired (inp : Input K) (g : Game K) : Bool :=
  inp.mouseLeftDown && decide (coolDown g.fireCooldown inp.dt ≤ 0)

/-- Source lines 171-174: the loop over the enemies from index `i` on, carrying
`bestT` and `bestIdx`. -/
def scanLoop (sqrt : K → K) (p d : Vec2 K) :
    List (Enemy K) → Nat → FVal K → Int → FVal K × Int
  | [], _, bestT, bestIdx => (bestT, bestIdx)
  | e :: rest, i, bestT, bestIdx =>
    let t := ray_vs_circle sqrt p d e.pos e.radius
    if t.ge0 && t.lt bestT then scanLoop sqrt p d rest (i + 1) t (Int.ofNat i)
    else scanLoop sqrt p d rest (i + 1) bestT bestIdx

/-- Source line 168: `float farT = 2000.0f;` -/
def farT : K := 2000

/-- Source lines 168-174: `bestIdx` after the loop, started with
`bestT = farT+1.0f` and `bestIdx = -1`. -/
def bestIdx (sqrt : K → K) (p d : Vec2 K) (es : List (Enemy K)) : Int :=
  (scanLoop sqrt p d es 0 (FVal.fin (farT + 1)) (-1)).2

/-- Source line 177: `enemies[bestIdx].hp -= 1.0f;` -/
def damage (es : List (Enemy K)) (k : Nat) : List (Enemy K) :=
  match es[k]? with
  | some e => es.set k { e with hp := e.hp - 1 }
  | none => es

/-- Source lines 168-178: hit resolution of one shot from `p` in direction `d`. -/
def hitscan (sqrt : K → K) (p d : Vec2 K) (es : List (Enemy K)) : List (Enemy K) :=
  let idx := bestIdx sqrt p d es
  if idx ≠ -1 then damage es idx.toNat else es

/-- Source lines 160-181: cooldown and firing. -/
def firePhase (sqrt : K → K) (inp : Input K) (g : Game K) : Game K :=
  let g := { g with fireCooldown := coolDown g.fireCooldown inp.dt }
  if inp.mouseLeftDown && decide (g.fireCooldown ≤ 0) then
    let p := g.player.pos
    let mouse : Vec2 K := ⟨inp.mouseX, inp.mouseY⟩
    let d := normalize sqrt (mouse - p)
    { g with fireCooldown := 0.12, enemies := hitscan sqrt p d g.enemies }
  else g

/-- Source line 184: the backward loop; the first argument is `i + 1` for the
loop index `i`, so `0` means the loop has ended. -/
def cleanupLoop : Nat → List (Enemy K) → List (Enemy K)
  | 0, es => es
  | i + 1, es =>
    match es[i]? with
    | some e => if e.hp ≤ 0 then cleanupLoop i (es.eraseIdx i) else cleanupLoop i es
    | none => cleanupLoop i es

/-- Source line 184: remove dead enemies, `i` starting at `enemies.size()-1`. -/
def cleanup (es : List (Enemy K)) : List (Enemy K) := cleanupLoop es.length es

/-- Removal of the dead enemies as the specification words it: the enemies with
health above zero, in their order. -/
def cleanupSpec (es : List (Enemy K)) : List (Enemy K) := es.filter (fun e => decide (0 < e.hp))

/-- Source line 184 on the globals. -/
def cleanupPhase (g : Game K) : Game K := { g with enemies := cleanup g.enemies }

/-- Source line 185: `if((int)enemies.size() < 6 && (std::rand()%100) < 10) spawnEnemy();`
The call of `std::rand()` is made only when the first conjunct holds. -/
def spawnPhase (rand : Nat → Nat) (g : Game K) : Game K :=
  if g.enemies.length < 6 then
    let r := rand g.randCalls
    let g := { g with randCalls := g.randCalls + 1 }
    if r % 100 < 10 then spawnEnemy rand g else g
  else g

/-- One iteration of the main loop, rendering left out. -/
def step (sqrt : K → K) (rand : Nat → Nat) (inp : Input K) (g : Game K) : Game K :=
  spawnPhase rand (cleanupPhase (firePhase sqrt inp (steerPhase sqrt inp (movePhase sqrt inp g))))

/-- The main loop over a finite sequence of frames. -/
def run (sqrt : K → K) (rand : Nat → Nat) : List (Input K) → Game K → Game K
  | [], g => g
  | inp :: rest, g => run sqrt rand rest (step sqrt rand inp g)

/-! ## Notions used to state the properties -/

/-- The point `p + t*d` of the ray. -/
def rayPoint (p d : Vec2 K) (t : K) : Vec2 K := p + d * t

/-- The point `q` lies on the circle of centre `c` and radius `r`: `|q - c| = r`. -/
def onCircle (sqrt : K → K) (c : Vec2 K) (r : K) (q : Vec2 K) : Prop :=
  length sqrt (q - c) = r

/-- Coefficient `b` of the quadratic of `ray_vs_circle`. -/
def quadB (p d c : Vec2 K) : K := 2 * (d.x * (p.x - c.x) + d.y * (p.y - c.y))

/-- Coefficient `cterm` of the quadratic of `ray_vs_circle`. -/
def quadC (p c : Vec2 K) (r : K) : K :=
  (p.x - c.x) * (p.x - c.x) + (p.y - c.y) * (p.y - c.y) - r * r

/-- The value `t` the loop of lines 171-174 computes for the enemy `e`. -/
def hitT (sqrt : K → K) (p d : Vec2 K) (e : Enemy K) : FVal K :=
  ray_vs_circle sqrt p d e.pos e.radius

/-- The test `t >= 0.0f && t < bestT` of line 173 against the initial
`bestT = farT+1.0f`: the enemy can be hit at all. -/
def isValidT (t : FVal K) : Bool := t.ge0 && t.lt (FVal.fin (farT + 1))

/-- For each frame of a run, whether a shot is fired in it. -/
def shots (sqrt : K → K) (rand : Nat → Nat) : List (Input K) → Game K → List Bool
  | [], _ => []
  | inp :: rest, g => shotFired inp g :: shots sqrt rand rest (step sqrt rand inp g)

/-- Cumulative frame time of a sequence of frames. -/
def totalDt (frames : List (Input K)) : K := (frames.map (fun f => f.dt)).sum

/-- The cooldown rule as the specification words it, "decrement cooldown by `dt`"
unconditionally, followed by the same test: a shot is fired in this frame. -/
def plainFired (inp : Input K) (cd : K) : Bool :=
  inp.mouseLeftDown && decide (cd - inp.dt ≤ 0)

/-- The cooldown after one frame under the unconditional rule: reset to 0.12 on a
shot, otherwise `cd - dt`. -/
def plainNext (inp : Input K) (cd : K) : K :=
  if plainFired inp cd = true then 0.12 else cd - inp.dt

/-- For each frame, whether a shot is fired under the unconditional rule. -/
def plainShots : List (Input K) → K → List Bool
  | [], _ => []
  | inp :: rest, cd => plainFired inp cd :: plainShots rest (plainNext inp cd)

/-- The cooldown after a sequence of frames under the unconditional rule. -/
def plainRun : List (Input K) → K → K
  | [], cd => cd
  | inp :: rest, cd => plainRun rest (plainNext inp cd)

/-! ## Binary32 arithmetic -/

/-- A value of the C++ type `float`, IEEE binary32: `fin k` is the finite number
`k * 2^-149` (every finite binary32 number is an integer multiple of the least
subnormal `2^-149`), or one of the infinities, or NaN.  The two zeros are one
value `fin 0`: they compare equal, and they differ only as divisors, which in
this program are `2*a` with `a` a sum of squares (never `-0`) and a length `l`
guarded by `l==0`. -/
inductive F32 where
  | fin (k : Int) : F32
  | pinf : F32
  | ninf : F32
  | nan : F32
deriving DecidableEq

/-- The integer nearest to `a / b`, a tie going to the even one (`b > 0`). -/
def roundNearestEven (a b : Nat) : Nat :=
  let q := a / b
  let r := a % b
  if 2 * r < b then q else if b < 2 * r then q + 1 else if q % 2 = 0 then q else q + 1

/-- The number of binary digits of `n`, counted by halving with an accumulator;
the first argument bounds the number of steps. -/
def bitsAux : Nat → Nat → Nat → Nat
  | 0, _, acc => acc
  | fuel + 1, n, acc => if n = 0 then acc else bitsAux fuel (n / 2) (acc + 1)

/-- The number of binary digits of `n` (for `n < 2^1200`). -/
def bits (n : Nat) : Nat := bitsAux 1200 n 0

/-- Rounding of the magnitude `a / b`, in units of `2^-149`, to binary32: below
`2^24` units the spacing of the floats is one unit, above it is `2^j` units with
`j` the number of digits beyond 24; `none` when the rounded value reaches `2^128`
(`2^277` units), the overflow. -/
def roundMag (a b : Nat) : Option Nat :=
  let j := bits (a / b) - 24
  let k := roundNearestEven a (b <<< j) <<< j
  if bits k ≤ 277 then some k else none

/-- Rounding of the exact value `num / den`, in units of `2^-149`, to binary32. -/
def F32.round (num : Int) (den : Nat) : F32 :=
  match roundMag num.natAbs den with
  | some k => F32.fin (if num < 0 then -(k : Int) else (k : Int))
  | none => if num < 0 then F32.ninf else F32.pinf

/-- The binary32 value of a literal or of an `int`: the fraction `num / den`
rounded, as `0.12f` is `ofRat 12 100` and `2` is `ofRat 2 1`. -/
def F32.ofRat (num : Int) (den : Nat) : F32 :=
  F32.round (num * ((1 <<< 149 : Nat) : Int)) den

/-- The exact value of a finite binary32 number as a rational (0 for the others). -/
def F32.toRat : F32 → ℚ
  | F32.fin k => (k : ℚ) / 2 ^ 149
  | _ => 0

/-- Unary minus. -/
def F32.neg : F32 → F32
  | F32.fin a => F32.fin (-a)
  | F32.pinf => F32.ninf
  | F32.ninf => F32.pinf
  | F32.nan => F32.nan

/-- Binary32 `+`: the exact sum rounded; `inf + -inf` is NaN. -/
def F32.add : F32 → F32 → F32
  | F32.fin a, F32.fin b => F32.round (a + b) 1
  | F32.nan, _ => F32.nan
  | _, F32.nan => F32.nan
  | F32.pinf, F32.ninf => F32.nan
  | F32.ninf, F32.pinf => F32.nan
  | F32.pinf, _ => F32.pinf
  | _, F32.pinf => F32.pinf
  | F32.ninf, _ => F32.ninf
  | _, F32.ninf => F32.ninf

/-- Binary32 `-`. -/
def F32.sub (x y : F32) : F32 := F32.add x (F32.neg y)

/-- Sign of a value: 1, 0 or -1 (0 for a zero and for NaN). -/
def F32.sign : F32 → Int
  | F32.fin a => Int.sign a
  | F32.pinf => 1
  | F32.ninf => -1
  | F32.nan => 0

/-- Binary32 `*`: the exact product rounded; `0 * inf` is NaN. -/
def F32.mul : F32 → F32 → F32
  | F32.fin a, F32.fin b => F32.round (a * b) (1 <<< 149)
  | F32.nan, _ => F32.nan
  | _, F32.nan => F32.nan
  | x, y =>
    if F32.sign x * F32.sign y = 0 then F32.nan
    else if 0 < F32.sign x * F32.sign y then F32.pinf else F32.ninf

/-- Binary32 `/`: the exact quotient rounded; `0/0` and `inf/inf` are NaN, `x/0`
is the infinity with the sign of `x` (the zero divisor is `+0`, see `F32`). -/
def F32.div : F32 → F32 → F32
  | F32.fin a, F32.fin b =>
    if b = 0 then (if a = 0 then F32.nan else if 0 < a then F32.pinf else F32.ninf)
    else F32.round (a * Int.sign b * ((1 <<< 149 : Nat) : Int)) b.natAbs
  | F32.nan, _ => F32.nan
  | _, F32.nan => F32.nan
  | F32.fin _, _ => F32.fin 0
  | F32.pinf, F32.fin b => if 0 ≤ b then F32.pinf else F32.ninf
  | F32.ninf, F32.fin b => if 0 ≤ b then F32.ninf else F32.pinf
  | _, _ => F32.nan

/-- Integer square root, bit by bit from bit `i - 1` down to bit 0. -/
def isqrtLoop (n : Nat) : Nat → Nat → Nat
  | 0, r => r
  | i + 1, r =>
    if (r + 1 <<< i) * (r + 1 <<< i) ≤ n then isqrtLoop n i (r + 1 <<< i)
    else isqrtLoop n i r

/-- The largest `r` with `r * r ≤ n`. -/
def isqrt (n : Nat) : Nat := isqrtLoop n (bits n / 2 + 1) 0

/-- The square root of `n`, both in units, rounded to 24 significant digits:
`m` is the root truncated to the spacing `2^j`, and it is raised by one when the
exact root lies above the midpoint, that is when `(2m+1)^2 * 4^j < 4n`. -/
def roundSqrt (n : Nat) : Nat :=
  let j := bits (isqrt n) - 24
  let m := isqrt (n >>> (2 * j))
  let up := (2 * m + 1) * (2 * m + 1) <<< (2 * j)
  let m := if up < 4 * n then m + 1 else if up = 4 * n ∧ m % 2 = 1 then m + 1 else m
  m <<< j

/-- Binary32 `std::sqrt`, correctly rounded; NaN below zero.  For `k` units the
root is `sqrt (k * 2^149)` units. -/
def F32.sqrt : F32 → F32
  | F32.fin a => if a < 0 then F32.nan else F32.fin (roundSqrt (a.toNat <<< 149))
  | F32.pinf => F32.pinf
  | F32.ninf => F32.nan
  | F32.nan => F32.nan

/-- Binary32 `<`; false as soon as one side is NaN. -/
def F32.lt : F32 → F32 → Bool
  | F32.fin a, F32.fin b => decide (a < b)
  | F32.fin _, F32.pinf => true
  | F32.ninf, F32.fin _ => true
  | F32.ninf, F32.pinf => true
  | _, _ => false

/-- Binary32 `<=`; false as soon as one side is NaN. -/
def F32.le : F32 → F32 → Bool
  | F32.fin a, F32.fin b => decide (a ≤ b)
  | F32.fin _, F32.pinf => true
  | F32.ninf, F32.fin _ => true
  | F32.ninf, F32.pinf => true
  | F32.pinf, F32.pinf => true
  | F32.ninf, F32.ninf => true
  | _, _ => false

/-- Binary32 `==`; false as soon as one side is NaN. -/
def F32.eq : F32 → F32 → Bool
  | F32.fin a, F32.fin b => decide (a = b)
  | F32.pinf, F32.pinf => true
  | F32.ninf, F32.ninf => true
  | _, _ => false

/-! ## The program in binary32 -/

namespace B32

/-- Source: `Vec2 operator+`, in binary32. -/
def vadd (v o : Vec2 F32) : Vec2 F32 := ⟨F32.add v.x o.x, F32.add v.y o.y⟩

/-- Source: `Vec2 operator-`, in binary32. -/
def vsub (v o : Vec2 F32) : Vec2 F32 := ⟨F32.sub v.x o.x, F32.sub v.y o.y⟩

/-- Source: `Vec2 operator*(float s)`, in binary32. -/
def vscale (v : Vec2 F32) (s : F32) : Vec2 F32 := ⟨F32.mul v.x s, F32.mul v.y s⟩

/-- Source: `length` (line 19), in binary32. -/
def length (v : Vec2 F32) : F32 := F32.sqrt (F32.add (F32.mul v.x v.x) (F32.mul v.y v.y))

/-- Source: `normalize` (line 20), in binary32. -/
def normalize (v : Vec2 F32) : Vec2 F32 :=
  let l := length v
  if F32.eq l (F32.ofRat 0 1) = true then ⟨F32.ofRat 0 1, F32.ofRat 0 1⟩
  else ⟨F32.div v.x l, F32.div v.y l⟩

/-- Source: `ray_vs_circle` (lines 48-64), in binary32, operation by operation. -/
def ray_vs_circle (p d c : Vec2 F32) (r : F32) : F32 :=
  let dx := d.x
  let dy := d.y
  let fx := F32.sub p.x c.x
  let fy := F32.sub p.y c.y
  let a := F32.add (F32.mul dx dx) (F32.mul dy dy)
  let b := F32.mul (F32.ofRat 2 1) (F32.add (F32.mul dx fx) (F32.mul dy fy))
  let cterm := F32.sub (F32.add (F32.mul fx fx) (F32.mul fy fy)) (F32.mul r r)
  let disc := F32.sub (F32.mul b b) (F32.mul (F32.mul (F32.ofRat 4 1) a) cterm)
  if F32.lt disc (F32.ofRat 0 1) = true then F32.ofRat (-1) 1
  else
    let disc := F32.sqrt disc
    let t1 := F32.div (F32.sub (F32.neg b) disc) (F32.mul (F32.ofRat 2 1) a)
    let t2 := F32.div (F32.add (F32.neg b) disc) (F32.mul (F32.ofRat 2 1) a)
    if F32.le (F32.ofRat 0 1) t1 = true then t1
    else if F32.le (F32.ofRat 0 1) t2 = true then t2 else F32.ofRat (-1) 1

/-- Source lines 138-143: the vector `v(vx, vy)` built from the WASD keys. -/
def moveIntent (inp : Input F32) : Vec2 F32 :=
  let vx := F32.ofRat 0 1
  let vy := F32.ofRat 0 1
  let vy := if inp.keyW then F32.sub vy (F32.ofRat 1 1) else vy
  let vy := if inp.keyS then F32.add vy (F32.ofRat 1 1) else vy
  let vx := if inp.keyA then F32.sub vx (F32.ofRat 1 1) else vx
  let vx := if inp.keyD then F32.add vx (F32.ofRat 1 1) else vx
  ⟨vx, vy⟩

/-- Source lines 148-151: the four clamping statements, in binary32. -/
def clampToWindow (pos : Vec2 F32) : Vec2 F32 :=
  let pos := if F32.lt pos.x (F32.ofRat 0 1) = true then { pos with x := F32.ofRat 0 1 }
    else pos
  let pos := if F32.lt pos.y (F32.ofRat 0 1) = true then { pos with y := F32.ofRat 0 1 }
    else pos
  let pos := if F32.lt (F32.ofRat WINDOW_W 1) pos.x = true
    then { pos with x := F32.ofRat WINDOW_W 1 } else pos
  let pos := if F32.lt (F32.ofRat WINDOW_H 1) pos.y = true
    then { pos with y := F32.ofRat WINDOW_H 1 } else pos
  pos

/-- Source lines 144-145: the displacement `v * (player.speed * dt)`, in binary32. -/
def moveDelta (inp : Input F32) (speed : F32) : Vec2 F32 :=
  let v := moveIntent inp
  let v := if F32.lt (F32.ofRat 1 10000) (length v) = true then normalize v else v
  vscale v (F32.mul speed inp.dt)

/-- Source lines 138-151 on the player, in binary32. -/
def movePhase (inp : Input F32) (pl : Player F32) : Player F32 :=
  { pl with pos := clampToWindow (vadd pl.pos (moveDelta inp pl.speed)) }

/-- Source lines 155-156: the steering of one enemy, in binary32. -/
def steerEnemy (playerPos : Vec2 F32) (dt : F32) (e : Enemy F32) : Enemy F32 :=
  let dir := normalize (vsub playerPos e.pos)
  { e with pos := vadd e.pos (vscale dir (F32.mul (F32.ofRat 60 1) dt)) }

/-- Source line 160: `if(fireCooldown > 0) fireCooldown -= dt;`, in binary32. -/
def coolDown (cd dt : F32) : F32 :=
  if F32.lt (F32.ofRat 0 1) cd = true then F32.sub cd dt else cd

/-- The condition of line 161 after line 160, in binary32. -/
def shotFired (inp : Input F32) (cd : F32) : Bool :=
  inp.mouseLeftDown && F32.le (coolDown cd inp.dt) (F32.ofRat 0 1)

/-- The value of `fireCooldown` after lines 160-162: `0.12f` on a shot. -/
def nextCooldown (inp : Input F32) (cd : F32) : F32 :=
  if shotFired inp cd = true then F32.ofRat 12 100 else coolDown cd inp.dt

/-- For each frame, whether a shot is fired, in binary32, from the cooldown `cd`. -/
def shots : List (Input F32) → F32 → List Bool
  | [], _ => []
  | inp :: rest, cd => shotFired inp cd :: shots rest (nextCooldown inp cd)

end B32

set_option maxRecDepth 100000

/-! ## Geometry kernel: lemmas over the reals -/

theorem length_unit_iff (d : Vec2 ℝ) :
    length Real.sqrt d = 1 ↔ d.x * d.x + d.y * d.y = 1 := by
  unfold length
  exact Real.sqrt_eq_one

/-- For a unit direction the divisor `2*a` is `2` and every quotient is finite. -/
theorem ray_vs_circle_unit (p d c : Vec2 ℝ) (r : ℝ) (hd : d.x * d.x + d.y * d.y = 1) :
    ray_vs_circle Real.sqrt p d c r =
      if quadB p d c * quadB p d c - 4 * quadC p c r < 0 then FVal.fin (-1)
      else if 0 ≤ (-quadB p d c - Real.sqrt (quadB p d c * quadB p d c - 4 * quadC p c r)) / 2
        then FVal.fin ((-quadB p d c
          - Real.sqrt (quadB p d c * quadB p d c - 4 * quadC p c r)) / 2)
      else if 0 ≤ (-quadB p d c + Real.sqrt (quadB p d c * quadB p d c - 4 * quadC p c r)) / 2
        then FVal.fin ((-quadB p d c
          + Real.sqrt (quadB p d c * quadB p d c - 4 * quadC p c r)) / 2)
      else FVal.fin (-1) := by
  simp only [ray_vs_circle, quadB, quadC, hd, mul_one, fdiv, FVal.ge0]
  norm_num

/-- On a ray with unit direction, being on the circle is the quadratic equation. -/
theorem onCircle_rayPoint_iff (p d c : Vec2 ℝ) (r t : ℝ) (hd : d.x * d.x + d.y * d.y = 1)
    (hr : 0 < r) :
    onCircle Real.sqrt c r (rayPoint p d t) ↔ t * t + quadB p d c * t + quadC p c r = 0 := by
  unfold onCircle length
  rw [Real.sqrt_eq_iff_mul_self_eq_of_pos hr]
  show r * r = (p.x + d.x * t - c.x) * (p.x + d.x * t - c.x)
      + (p.y + d.y * t - c.y) * (p.y + d.y * t - c.y) ↔ _
  unfold quadB quadC
  constructor
  · intro h
    linear_combination (-1 : ℝ) * h - (t * t) * hd
  · intro h
    linear_combination (-1 : ℝ) * h - (t * t) * hd

@[simp]
theorem Vec2.sub_x (v o : Vec2 K) : (v - o).x = v.x - o.x := rfl

@[simp]
theorem Vec2.sub_y (v o : Vec2 K) : (v - o).y = v.y - o.y := rfl

@[simp]
theorem Vec2.add_x (v o : Vec2 K) : (v + o).x = v.x + o.x := rfl

@[simp]
theorem Vec2.add_y (v o : Vec2 K) : (v + o).y = v.y + o.y := rfl

@[simp]
theorem Vec2.scale_x (v : Vec2 K) (s : K) : (v * s).x = v.x * s := rfl

@[simp]
theorem Vec2.scale_y (v : Vec2 K) (s : K) : (v * s).y = v.y * s := rfl

theorem Vec2.add_def (v o : Vec2 K) : v + o = ⟨v.x + o.x, v.y + o.y⟩ := rfl

theorem Vec2.sub_def (v o : Vec2 K) : v - o = ⟨v.x - o.x, v.y - o.y⟩ := rfl

theorem Vec2.scale_def (v : Vec2 K) (s : K) : v * s = ⟨v.x * s, v.y * s⟩ := rfl

/-- The two roots of `t*t + b*t + k`, given a square root `s` of the discriminant. -/
theorem quad_root_iff (b k s t : ℝ) (hss : s * s = b * b - 4 * k) :
    t * t + b * t + k = 0 ↔ t = (-b - s) / 2 ∨ t = (-b + s) / 2 := by
  constructor
  · intro h
    have hprod : (t - (-b - s) / 2) * (t - (-b + s) / 2) = 0 := by
      linear_combination h - hss / 4
    rcases mul_eq_zero.mp hprod with h1 | h1
    · left; linarith
    · right; linarith
  · rintro (h | h)
    · subst h; linear_combination hss / 4
    · subst h; linear_combination hss / 4

/-- The result of `ray_vs_circle` for a unit direction: either `-1` and the ray
does not meet the circle, or the least non-negative parameter of a meeting point. -/
theorem ray_vs_circle_cases (p d c : Vec2 ℝ) (r : ℝ) (hd : d.x * d.x + d.y * d.y = 1)
    (hr : 0 < r) :
    (ray_vs_circle Real.sqrt p d c r = FVal.fin (-1)
        ∧ ∀ t, 0 ≤ t → ¬ onCircle Real.sqrt c r (rayPoint p d t))
      ∨ ∃ t, ray_vs_circle Real.sqrt p d c r = FVal.fin t ∧ 0 ≤ t
          ∧ onCircle Real.sqrt c r (rayPoint p d t)
          ∧ ∀ s, 0 ≤ s → onCircle Real.sqrt c r (rayPoint p d s) → t ≤ s := by
  rw [ray_vs_circle_unit p d c r hd]
  simp only [onCircle_rayPoint_iff p d c r _ hd hr]
  generalize quadB p d c = b
  generalize quadC p c r = k
  by_cases hD : b * b - 4 * k < 0
  · left
    rw [if_pos hD]
    refine ⟨rfl, fun t _ h => ?_⟩
    nlinarith [sq_nonneg (2 * t + b)]
  · rw [if_neg hD]
    have hss := Real.mul_self_sqrt (not_lt.mp hD)
    have hs0 := Real.sqrt_nonneg (b * b - 4 * k)
    generalize Real.sqrt (b * b - 4 * k) = s at hss hs0 ⊢
    have root := fun t => quad_root_iff b k s t hss
    by_cases h1 : 0 ≤ (-b - s) / 2
    · right
      rw [if_pos h1]
      refine ⟨_, rfl, h1, (root _).2 (Or.inl rfl), ?_⟩
      intro u _ hu
      rcases (root u).1 hu with h | h <;> linarith
    · rw [if_neg h1]
      by_cases h2 : 0 ≤ (-b + s) / 2
      · right
        rw [if_pos h2]
        refine ⟨_, rfl, h2, (root _).2 (Or.inr rfl), ?_⟩
        intro u hu0 hu
        rcases (root u).1 hu with h | h
        · exact absurd (h ▸ hu0) h1
        · exact le_of_eq h.symm
      · left
        rw [if_neg h2]
        refine ⟨rfl, ?_⟩
        intro t ht hroot
        rcases (root t).1 hroot with h | h
        · exact h1 (h ▸ ht)
        · exact h2 (h ▸ ht)

/-! ## C1 - C4: the ray-circle primitive -/

/-- C1: for a unit direction and a positive radius, over the reals, `ray_vs_circle`
returns `-1` exactly when no parameter `t >= 0` gives a point of the ray on the
circle, and otherwise returns the smallest such `t`. -/
theorem ray_vs_circle_smallest_hit (p d c : Vec2 ℝ) (r : ℝ)
    (hd : length Real.sqrt d = 1) (hr : 0 < r) :
    (ray_vs_circle Real.sqrt p d c r = FVal.fin (-1)
        ↔ ¬ ∃ t, 0 ≤ t ∧ onCircle Real.sqrt c r (rayPoint p d t))
      ∧ (ray_vs_circle Real.sqrt p d c r ≠ FVal.fin (-1) →
          ∃ t, ray_vs_circle Real.sqrt p d c r = FVal.fin t ∧ 0 ≤ t
            ∧ onCircle Real.sqrt c r (rayPoint p d t)
            ∧ ∀ s, 0 ≤ s → onCircle Real.sqrt c r (rayPoint p d s) → t ≤ s) := by
  rcases ray_vs_circle_cases p d c r ((length_unit_iff d).1 hd) hr with
    ⟨hres, hno⟩ | ⟨t, hres, ht, hon, hmin⟩
  · refine ⟨⟨fun _ => ?_, fun _ => hres⟩, fun hne => absurd hres hne⟩
    rintro ⟨t, ht, hon⟩
    exact hno t ht hon
  · have hne : ray_vs_circle Real.sqrt p d c r ≠ FVal.fin (-1) := by
      rw [hres]
      intro h
      have h1 : t = -1 := FVal.fin.inj h
      linarith
    refine ⟨⟨fun h => absurd h hne, fun h => absurd ⟨t, ht, hon⟩ h⟩, fun _ => ?_⟩
    exact ⟨t, hres, ht, hon, hmin⟩

theorem sqrt_of_mul_self (x y : ℝ) (hy : 0 ≤ y) (h : y * y = x) : Real.sqrt x = y := by
  rw [← h]
  exact Real.sqrt_mul_self hy

/-- A ray from the origin along the x axis meets the unit circle around (5,0) at t = 4. -/
theorem ray_example_value :
    ray_vs_circle Real.sqrt (⟨0, 0⟩ : Vec2 ℝ) ⟨1, 0⟩ ⟨5, 0⟩ 1 = FVal.fin 4 := by
  have h4 : Real.sqrt 4 = 2 := sqrt_of_mul_self 4 2 (by norm_num) (by norm_num)
  rw [ray_vs_circle_unit _ _ _ _ (by norm_num)]
  norm_num [quadB, quadC, h4]

/-- Witness of C1 at origin (0,0), direction (1,0), centre (5,0), radius 1. -/
theorem ray_vs_circle_smallest_hit_witness :
    length Real.sqrt (⟨1, 0⟩ : Vec2 ℝ) = 1 ∧ (0 : ℝ) < 1
      ∧ ((ray_vs_circle Real.sqrt (⟨0, 0⟩ : Vec2 ℝ) ⟨1, 0⟩ ⟨5, 0⟩ 1 = FVal.fin (-1)
          ↔ ¬ ∃ t, 0 ≤ t ∧ onCircle Real.sqrt (⟨5, 0⟩ : Vec2 ℝ) 1 (rayPoint ⟨0, 0⟩ ⟨1, 0⟩ t))
        ∧ (ray_vs_circle Real.sqrt (⟨0, 0⟩ : Vec2 ℝ) ⟨1, 0⟩ ⟨5, 0⟩ 1 ≠ FVal.fin (-1) →
          ∃ t, ray_vs_circle Real.sqrt (⟨0, 0⟩ : Vec2 ℝ) ⟨1, 0⟩ ⟨5, 0⟩ 1 = FVal.fin t ∧ 0 ≤ t
            ∧ onCircle Real.sqrt (⟨5, 0⟩ : Vec2 ℝ) 1 (rayPoint ⟨0, 0⟩ ⟨1, 0⟩ t)
            ∧ ∀ s, 0 ≤ s → onCircle Real.sqrt (⟨5, 0⟩ : Vec2 ℝ) 1 (rayPoint ⟨0, 0⟩ ⟨1, 0⟩ s)
                → t ≤ s)) :=
  ⟨by simp [length], by norm_num,
    ray_vs_circle_smallest_hit ⟨0, 0⟩ ⟨1, 0⟩ ⟨5, 0⟩ 1 (by simp [length]) (by norm_num)⟩

/-- C2: for a unit direction and a positive radius, over the reals, whenever
`ray_vs_circle` returns a hit `t >= 0` the point `p + t*d` lies on the circle. -/
theorem ray_vs_circle_hit_on_circle (p d c : Vec2 ℝ) (r t : ℝ)
    (hd : length Real.sqrt d = 1) (hr : 0 < r)
    (hres : ray_vs_circle Real.sqrt p d c r = FVal.fin t) (ht : 0 ≤ t) :
    onCircle Real.sqrt c r (rayPoint p d t) := by
  rcases ray_vs_circle_cases p d c r ((length_unit_iff d).1 hd) hr with
    ⟨hno, _⟩ | ⟨u, hu, _, hon, _⟩
  · rw [hres] at hno
    have h1 : t = -1 := FVal.fin.inj hno
    linarith
  · rw [hres] at hu
    have h1 : t = u := FVal.fin.inj hu
    rw [h1]
    exact hon

/-- Witness of C2 at origin (0,0), direction (1,0), centre (5,0), radius 1, t = 4. -/
theorem ray_vs_circle_hit_on_circle_witness :
    length Real.sqrt (⟨1, 0⟩ : Vec2 ℝ) = 1 ∧ (0 : ℝ) < 1
      ∧ ray_vs_circle Real.sqrt (⟨0, 0⟩ : Vec2 ℝ) ⟨1, 0⟩ ⟨5, 0⟩ 1 = FVal.fin 4
      ∧ (0 : ℝ) ≤ 4
      ∧ onCircle Real.sqrt (⟨5, 0⟩ : Vec2 ℝ) 1 (rayPoint ⟨0, 0⟩ ⟨1, 0⟩ 4) :=
  ⟨by simp [length], by norm_num, ray_example_value, by norm_num,
    ray_vs_circle_hit_on_circle ⟨0, 0⟩ ⟨1, 0⟩ ⟨5, 0⟩ 1 4 (by simp [length]) (by norm_num)
      ray_example_value (by norm_num)⟩

/-- C3 as amended: in exact real arithmetic, for a unit direction, a positive
radius and an origin strictly inside the circle, `ray_vs_circle` does not return `-1`: it returns the
larger root `(-b + sqrt(b*b - 4*cterm))/2` of the quadratic, which is positive and
is the largest parameter of a point of the line on the circle (the exit point);
the other meeting point has a negative parameter and is not returned. -/
theorem ray_vs_circle_inside_exit (p d c : Vec2 ℝ) (r : ℝ)
    (hd : length Real.sqrt d = 1) (hr : 0 < r) (hin : length Real.sqrt (p - c) < r) :
    ray_vs_circle Real.sqrt p d c r ≠ FVal.fin (-1)
      ∧ ∃ t, ray_vs_circle Real.sqrt p d c r = FVal.fin t
        ∧ t = (-quadB p d c + Real.sqrt (quadB p d c * quadB p d c - 4 * quadC p c r)) / 2
        ∧ 0 < t
        ∧ onCircle Real.sqrt c r (rayPoint p d t)
        ∧ (∀ s, onCircle Real.sqrt c r (rayPoint p d s) → s ≤ t)
        ∧ ∃ s, s < 0 ∧ onCircle Real.sqrt c r (rayPoint p d s) := by
  have hd1 := (length_unit_iff d).1 hd
  have hk : quadC p c r < 0 := by
    unfold length at hin
    rw [Real.sqrt_lt' hr] at hin
    simp only [Vec2.sub_x, Vec2.sub_y] at hin
    unfold quadC
    nlinarith
  rw [ray_vs_circle_unit p d c r hd1]
  simp only [onCircle_rayPoint_iff p d c r _ hd1 hr]
  generalize quadB p d c = b at *
  generalize quadC p c r = k at *
  have hD : ¬ b * b - 4 * k < 0 := by nlinarith [mul_self_nonneg b]
  have hss := Real.mul_self_sqrt (not_lt.mp hD)
  have hs0 := Real.sqrt_nonneg (b * b - 4 * k)
  generalize Real.sqrt (b * b - 4 * k) = s at hss hs0 ⊢
  have root := fun t => quad_root_iff b k s t hss
  have hsb : b < s := by nlinarith
  have hsb2 : -b < s := by nlinarith
  have h1 : ¬ 0 ≤ (-b - s) / 2 := by
    intro h
    linarith
  have h2 : 0 ≤ (-b + s) / 2 := by linarith
  rw [if_neg hD, if_neg h1, if_pos h2]
  refine ⟨?_, _, rfl, rfl, by linarith, (root _).2 (Or.inr rfl), ?_, ?_⟩
  · intro h
    have h3 := FVal.fin.inj h
    linarith
  · intro u hu
    rcases (root u).1 hu with h | h <;> linarith
  · exact ⟨(-b - s) / 2, by linarith, (root _).2 (Or.inl rfl)⟩

/-- Witness of C3 as amended at origin (0,0) = centre, direction (1,0), radius 1. -/
theorem ray_vs_circle_inside_exit_witness :
    length Real.sqrt (⟨1, 0⟩ : Vec2 ℝ) = 1 ∧ (0 : ℝ) < 1
      ∧ length Real.sqrt ((⟨0, 0⟩ : Vec2 ℝ) - ⟨0, 0⟩) < 1
      ∧ ray_vs_circle Real.sqrt (⟨0, 0⟩ : Vec2 ℝ) ⟨1, 0⟩ ⟨0, 0⟩ 1 ≠ FVal.fin (-1) :=
  ⟨by simp [length], by norm_num, by simp [length],
    (ray_vs_circle_inside_exit ⟨0, 0⟩ ⟨1, 0⟩ ⟨0, 0⟩ 1 (by simp [length]) (by norm_num)
      (by simp [length])).1⟩

/-- C4 as amended: in exact real arithmetic, for a positive radius and an origin
farther than the radius from the centre, the direction `(p - c)/|p - c|` (which is what `normalize`
gives for `p - c`, and has length 1) makes `ray_vs_circle` return `-1`. -/
theorem ray_vs_circle_pointing_away (p c : Vec2 ℝ) (r : ℝ) (hr : 0 < r)
    (hout : r < length Real.sqrt (p - c)) :
    normalize Real.sqrt (p - c)
        = ⟨(p.x - c.x) / length Real.sqrt (p - c), (p.y - c.y) / length Real.sqrt (p - c)⟩
      ∧ length Real.sqrt (⟨(p.x - c.x) / length Real.sqrt (p - c),
          (p.y - c.y) / length Real.sqrt (p - c)⟩ : Vec2 ℝ) = 1
      ∧ ray_vs_circle Real.sqrt p
          ⟨(p.x - c.x) / length Real.sqrt (p - c), (p.y - c.y) / length Real.sqrt (p - c)⟩
          c r = FVal.fin (-1) := by
  have hL0 : 0 < length Real.sqrt (p - c) := lt_trans hr hout
  have hLL : length Real.sqrt (p - c) * length Real.sqrt (p - c)
      = (p.x - c.x) * (p.x - c.x) + (p.y - c.y) * (p.y - c.y) := by
    unfold length
    have hnn : 0 ≤ (p - c).x * (p - c).x + (p - c).y * (p - c).y :=
      add_nonneg (mul_self_nonneg _) (mul_self_nonneg _)
    exact Real.mul_self_sqrt hnn
  have hnorm : normalize Real.sqrt (p - c)
      = ⟨(p.x - c.x) / length Real.sqrt (p - c), (p.y - c.y) / length Real.sqrt (p - c)⟩ := by
    simp only [normalize, if_neg (ne_of_gt hL0), Vec2.sub_x, Vec2.sub_y]
  refine ⟨hnorm, ?_⟩
  clear hnorm
  generalize length Real.sqrt (p - c) = L at *
  have hLne : L ≠ 0 := ne_of_gt hL0
  have hd1 : (p.x - c.x) / L * ((p.x - c.x) / L) + (p.y - c.y) / L * ((p.y - c.y) / L) = 1 := by
    field_simp
    linarith
  refine ⟨?_, ?_⟩
  · exact (length_unit_iff _).2 hd1
  · rw [ray_vs_circle_unit p _ c r hd1]
    have hB : quadB p ⟨(p.x - c.x) / L, (p.y - c.y) / L⟩ c = 2 * L := by
      unfold quadB
      field_simp
      linarith
    have hC : quadC p c r = L * L - r * r := by
      unfold quadC
      rw [hLL]
    have hS : Real.sqrt (2 * L * (2 * L) - 4 * (L * L - r * r)) = 2 * r :=
      sqrt_of_mul_self _ _ (by linarith) (by ring)
    rw [hB, hC, hS]
    have hD : ¬ 2 * L * (2 * L) - 4 * (L * L - r * r) < 0 := by nlinarith
    have h1 : ¬ 0 ≤ (-(2 * L) - 2 * r) / 2 := by
      intro h
      linarith
    have h2 : ¬ 0 ≤ (-(2 * L) + 2 * r) / 2 := by
      intro h
      linarith
    rw [if_neg hD, if_neg h1, if_neg h2]

/-- Witness of C4 as amended at origin (3,0), centre (0,0), radius 1. -/
theorem ray_vs_circle_pointing_away_witness :
    (0 : ℝ) < 1 ∧ 1 < length Real.sqrt ((⟨3, 0⟩ : Vec2 ℝ) - ⟨0, 0⟩)
      ∧ ray_vs_circle Real.sqrt (⟨3, 0⟩ : Vec2 ℝ)
          ⟨(3 - 0) / length Real.sqrt ((⟨3, 0⟩ : Vec2 ℝ) - ⟨0, 0⟩),
            (0 - 0) / length Real.sqrt ((⟨3, 0⟩ : Vec2 ℝ) - ⟨0, 0⟩)⟩
          ⟨0, 0⟩ 1 = FVal.fin (-1) :=
  have h3 : length Real.sqrt ((⟨3, 0⟩ : Vec2 ℝ) - ⟨0, 0⟩) = 3 := by
    unfold length
    exact sqrt_of_mul_self _ 3 (by norm_num) (by norm_num)
  ⟨by norm_num, by rw [h3]; norm_num,
    (ray_vs_circle_pointing_away ⟨3, 0⟩ ⟨0, 0⟩ 1 (by norm_num) (by rw [h3]; norm_num)).2.2⟩

/-! ## Hit resolution -/

theorem test_iff (t : FVal K) (B : K) :
    (t.ge0 && t.lt (FVal.fin B)) = true ↔ ∃ v, t = FVal.fin v ∧ 0 ≤ v ∧ v < B := by
  cases t with
  | fin v => simp [FVal.ge0, FVal.lt]
  | posInf => simp [FVal.ge0, FVal.lt]
  | negInf => simp [FVal.ge0, FVal.lt]
  | nan => simp [FVal.ge0, FVal.lt]

theorem isValidT_iff (t : FVal K) :
    isValidT t = true ↔ ∃ v, t = FVal.fin v ∧ 0 ≤ v ∧ v < farT + 1 :=
  test_iff t (farT + 1)

/-- Invariant of the loop of lines 171-174, started at index `i` with a finite
`bestT = B`: either no remaining enemy passes the test and nothing changes, or the
loop ends with the least passing `t`, at the first index where it is attained. -/
theorem scanLoop_spec (sqrt : K → K) (p d : Vec2 K) (es : List (Enemy K)) :
    ∀ (i : Nat) (B : K) (idx : Int),
      ((∀ (j : Nat) e w, es[j]? = some e → hitT sqrt p d e = FVal.fin w → 0 ≤ w → B ≤ w)
          ∧ scanLoop sqrt p d es i (FVal.fin B) idx = (FVal.fin B, idx))
        ∨ ∃ (k : Nat) (ek : Enemy K) (v : K), es[k]? = some ek ∧ hitT sqrt p d ek = FVal.fin v ∧ 0 ≤ v ∧ v < B
            ∧ scanLoop sqrt p d es i (FVal.fin B) idx = (FVal.fin v, Int.ofNat (i + k))
            ∧ ∀ (j : Nat) e w, es[j]? = some e → hitT sqrt p d e = FVal.fin w → 0 ≤ w →
                v ≤ w ∧ (j < k → v < w) := by
  induction es with
  | nil =>
    intro i B idx
    left
    exact ⟨fun j e w h => by simp at h, rfl⟩
  | cons e rest ih =>
    intro i B idx
    by_cases htest : ((hitT sqrt p d e).ge0 && (hitT sqrt p d e).lt (FVal.fin B)) = true
    · obtain ⟨v, hv, hv0, hvB⟩ := (test_iff _ _).1 htest
      have hloop : scanLoop sqrt p d (e :: rest) i (FVal.fin B) idx
          = scanLoop sqrt p d rest (i + 1) (FVal.fin v) (Int.ofNat i) := by
        have htest2 := htest
        unfold hitT at htest2
        rw [scanLoop]
        simp only [htest2, if_true]
        have hv2 := hv
        unfold hitT at hv2
        rw [hv2]
      right
      rcases ih (i + 1) v (Int.ofNat i) with ⟨hno, hres⟩ | ⟨k, ek, u, hk, hu, hu0, huv, hres, hmin⟩
      · refine ⟨0, e, v, by simp, hv, hv0, hvB, by rw [hloop, hres]; rfl, ?_⟩
        intro j e2 w hj hw hw0
        cases j with
        | zero =>
          simp at hj
          subst hj
          rw [hv] at hw
          have hvw : v = w := FVal.fin.inj hw
          exact ⟨le_of_eq hvw, fun h => absurd h (Nat.lt_irrefl 0)⟩
        | succ j2 =>
          simp at hj
          exact ⟨hno j2 e2 w hj hw hw0, fun h => absurd h (Nat.not_lt_zero _)⟩
      · refine ⟨k + 1, ek, u, by simpa using hk, hu, hu0, lt_trans huv hvB, ?_, ?_⟩
        · rw [hloop, hres]
          simp [Nat.add_assoc, Nat.add_comm 1 k]
        · intro j e2 w hj hw hw0
          cases j with
          | zero =>
            simp at hj
            subst hj
            rw [hv] at hw
            have hvw : v = w := FVal.fin.inj hw
            rw [← hvw]
            exact ⟨le_of_lt huv, fun _ => huv⟩
          | succ j2 =>
            simp at hj
            have h2 := hmin j2 e2 w hj hw hw0
            exact ⟨h2.1, fun h => h2.2 (Nat.lt_of_succ_lt_succ h)⟩
    · have hloop : scanLoop sqrt p d (e :: rest) i (FVal.fin B) idx
          = scanLoop sqrt p d rest (i + 1) (FVal.fin B) idx := by
        have htest2 := htest
        unfold hitT at htest2
        rw [scanLoop]
        simp only [htest2]
        rfl
      have he : ∀ w, hitT sqrt p d e = FVal.fin w → 0 ≤ w → B ≤ w := by
        intro w hw hw0
        by_contra hlt
        exact htest ((test_iff _ _).2 ⟨w, hw, hw0, not_le.mp hlt⟩)
      rcases ih (i + 1) B idx with ⟨hno, hres⟩ | ⟨k, ek, u, hk, hu, hu0, huB, hres, hmin⟩
      · left
        refine ⟨?_, by rw [hloop, hres]⟩
        intro j e2 w hj hw hw0
        cases j with
        | zero =>
          simp at hj
          subst hj
          exact he w hw hw0
        | succ j2 =>
          simp at hj
          exact hno j2 e2 w hj hw hw0
      · right
        refine ⟨k + 1, ek, u, by simpa using hk, hu, hu0, huB, ?_, ?_⟩
        · rw [hloop, hres]
          simp [Nat.add_assoc, Nat.add_comm 1 k]
        · intro j e2 w hj hw hw0
          cases j with
          | zero =>
            simp at hj
            subst hj
            have h3 := he w hw hw0
            exact ⟨le_of_lt (lt_of_lt_of_le huB h3), fun _ => lt_of_lt_of_le huB h3⟩
          | succ j2 =>
            simp at hj
            have h2 := hmin j2 e2 w hj hw hw0
            exact ⟨h2.1, fun h => h2.2 (Nat.lt_of_succ_lt_succ h)⟩

/-- A circle centred on the ray at distance `D >= r` is met at `t = D - r`. -/
theorem ray_vs_circle_along (q u : Vec2 ℝ) (D r : ℝ) (hu : u.x * u.x + u.y * u.y = 1)
    (hr : 0 ≤ r) (hrD : r ≤ D) :
    ray_vs_circle Real.sqrt q u (q + u * D) r = FVal.fin (D - r) := by
  rw [ray_vs_circle_unit q u _ r hu]
  have hB : quadB q u (q + u * D) = -(2 * D) := by
    unfold quadB
    simp only [Vec2.add_x, Vec2.add_y, Vec2.scale_x, Vec2.scale_y]
    linear_combination (-2 * D) * hu
  have hC : quadC q (q + u * D) r = D * D - r * r := by
    unfold quadC
    simp only [Vec2.add_x, Vec2.add_y, Vec2.scale_x, Vec2.scale_y]
    linear_combination (D * D) * hu
  have hS : Real.sqrt (-(2 * D) * -(2 * D) - 4 * (D * D - r * r)) = 2 * r :=
    sqrt_of_mul_self _ _ (by linarith) (by ring)
  rw [hB, hC, hS]
  have hD : ¬ -(2 * D) * -(2 * D) - 4 * (D * D - r * r) < 0 := by nlinarith
  have h1 : 0 ≤ (- -(2 * D) - 2 * r) / 2 := by linarith
  rw [if_neg hD, if_pos h1]
  congr 1
  ring

/-- C5: hit resolution of one shot.  A value passing the test of line 173 is a
finite `t` with `0 <= t < farT+1`.  If no enemy has such a `t`, the enemy list is
unchanged.  Otherwise the list changes in exactly one place: the enemy `k` whose
`t` is the least valid one, with the lowest index among those attaining it, has
its health lowered by exactly 1; nothing else changes.  In particular, over the
reals, of two enemies (as constructed, radius 18) centred at distances 100 and 150
on the aim ray only the nearer is damaged, whatever their order in the list. -/
theorem hitscan_one_shot (sqrt : K → K) (p d : Vec2 K) (es : List (Enemy K)) :
    (∀ t : FVal K, isValidT t = true → ∃ v, t = FVal.fin v ∧ 0 ≤ v ∧ v < farT + 1)
      ∧ ((∀ (j : Nat) e, es[j]? = some e → isValidT (hitT sqrt p d e) = false) →
          hitscan sqrt p d es = es)
      ∧ ((∃ (j : Nat) (e : Enemy K), es[j]? = some e ∧ isValidT (hitT sqrt p d e) = true) →
          ∃ (k : Nat) (ek : Enemy K) (v : K), es[k]? = some ek
            ∧ hitT sqrt p d ek = FVal.fin v ∧ isValidT (FVal.fin v) = true
            ∧ (∀ (j : Nat) e w, es[j]? = some e → hitT sqrt p d e = FVal.fin w →
                isValidT (FVal.fin w) = true → v ≤ w ∧ (j < k → v < w))
            ∧ hitscan sqrt p d es = es.set k { ek with hp := ek.hp - 1 })
      ∧ (∀ q u : Vec2 ℝ, length Real.sqrt u = 1 →
          hitscan Real.sqrt q u
                [Enemy.new (q + u * (100 : ℝ)), Enemy.new (q + u * (150 : ℝ))]
              = [⟨q + u * (100 : ℝ), 18, 0⟩, Enemy.new (q + u * (150 : ℝ))]
            ∧ hitscan Real.sqrt q u
                [Enemy.new (q + u * (150 : ℝ)), Enemy.new (q + u * (100 : ℝ))]
              = [Enemy.new (q + u * (150 : ℝ)), ⟨q + u * (100 : ℝ), 18, 0⟩]) := by
  refine ⟨fun t ht => (isValidT_iff t).1 ht, ?_, ?_, ?_⟩
  · intro hall
    rcases scanLoop_spec sqrt p d es 0 (farT + 1) (-1) with
      ⟨_, hres⟩ | ⟨k, ek, v, hk, hv, hv0, hvB, _, _⟩
    · simp [hitscan, bestIdx, hres]
    · have h1 := hall k ek hk
      have h2 : isValidT (hitT sqrt p d ek) = true :=
        (isValidT_iff _).2 ⟨v, hv, hv0, hvB⟩
      rw [h1] at h2
      exact absurd h2 (by simp)
  · rintro ⟨j, e, hj, hvalid⟩
    obtain ⟨w, hw, hw0, hwB⟩ := (isValidT_iff _).1 hvalid
    rcases scanLoop_spec sqrt p d es 0 (farT + 1) (-1) with
      ⟨hno, _⟩ | ⟨k, ek, v, hk, hv, hv0, hvB, hres, hmin⟩
    · exact absurd (hno j e w hj hw hw0) (not_le.mpr hwB)
    · refine ⟨k, ek, v, hk, hv, (isValidT_iff _).2 ⟨v, rfl, hv0, hvB⟩, ?_, ?_⟩
      · intro j2 e2 w2 hj2 hw2 hval2
        obtain ⟨w3, hw3, hw30, _⟩ := (isValidT_iff _).1 hval2
        have h3 : w2 = w3 := FVal.fin.inj hw3
        exact hmin j2 e2 w2 hj2 hw2 (h3 ▸ hw30)
      · have hidx : bestIdx sqrt p d es = Int.ofNat k := by
          simp [bestIdx, hres]
        have hne : (Int.ofNat k) ≠ -1 := by
          intro h
          have h0 : (0 : Int) ≤ Int.ofNat k := Int.ofNat_nonneg k
          rw [h] at h0
          exact absurd h0 (by decide)
        have htn : (Int.ofNat k).toNat = k := rfl
        simp only [hitscan, hidx, hne, ne_eq, not_false_eq_true, if_true, htn,
          damage, hk]
  · intro q u hu
    have hu1 := (length_unit_iff u).1 hu
    have h100 := ray_vs_circle_along q u 100 18 hu1 (by norm_num) (by norm_num)
    have h150 := ray_vs_circle_along q u 150 18 hu1 (by norm_num) (by norm_num)
    constructor
    · simp [hitscan, bestIdx, scanLoop, Enemy.new, h100, h150, FVal.ge0, FVal.lt, farT, damage]
      norm_num
    · simp [hitscan, bestIdx, scanLoop, Enemy.new, h100, h150, FVal.ge0, FVal.lt, farT, damage]
      norm_num

/-- The shot of the specification's example: from (400,300) straight up at the
enemy circle around (400,200) with radius 18, the hit is at t = 82. -/
theorem ray_example_shot :
    ray_vs_circle Real.sqrt (⟨400, 300⟩ : Vec2 ℝ) ⟨0, -1⟩ ⟨400, 200⟩ 18 = FVal.fin 82 := by
  have h36 : Real.sqrt 1296 = 36 := sqrt_of_mul_self 1296 36 (by norm_num) (by norm_num)
  rw [ray_vs_circle_unit _ _ _ _ (by norm_num)]
  norm_num [quadB, quadC, h36]

/-- Witness of C5: one enemy at (400,200) shot from (400,300) in direction (0,-1),
and the two enemies at distances 100 and 150 on that ray. -/
theorem hitscan_one_shot_witness :
    (∃ (j : Nat) (e : Enemy ℝ), [Enemy.new (⟨400, 200⟩ : Vec2 ℝ)][j]? = some e
        ∧ isValidT (hitT Real.sqrt ⟨400, 300⟩ ⟨0, -1⟩ e) = true)
      ∧ length Real.sqrt (⟨0, -1⟩ : Vec2 ℝ) = 1
      ∧ (∃ (k : Nat) (ek : Enemy ℝ) (v : ℝ),
          [Enemy.new (⟨400, 200⟩ : Vec2 ℝ)][k]? = some ek
            ∧ hitT Real.sqrt ⟨400, 300⟩ ⟨0, -1⟩ ek = FVal.fin v
            ∧ isValidT (FVal.fin v) = true
            ∧ (∀ (j : Nat) e w, [Enemy.new (⟨400, 200⟩ : Vec2 ℝ)][j]? = some e →
                hitT Real.sqrt ⟨400, 300⟩ ⟨0, -1⟩ e = FVal.fin w →
                isValidT (FVal.fin w) = true → v ≤ w ∧ (j < k → v < w))
            ∧ hitscan Real.sqrt ⟨400, 300⟩ ⟨0, -1⟩ [Enemy.new (⟨400, 200⟩ : Vec2 ℝ)]
              = [Enemy.new (⟨400, 200⟩ : Vec2 ℝ)].set k { ek with hp := ek.hp - 1 })
      ∧ hitscan Real.sqrt (⟨400, 300⟩ : Vec2 ℝ) ⟨0, -1⟩
          [Enemy.new ((⟨400, 300⟩ : Vec2 ℝ) + (⟨0, -1⟩ : Vec2 ℝ) * (100 : ℝ)),
            Enemy.new ((⟨400, 300⟩ : Vec2 ℝ) + (⟨0, -1⟩ : Vec2 ℝ) * (150 : ℝ))]
        = [⟨(⟨400, 300⟩ : Vec2 ℝ) + (⟨0, -1⟩ : Vec2 ℝ) * (100 : ℝ), 18, 0⟩,
            Enemy.new ((⟨400, 300⟩ : Vec2 ℝ) + (⟨0, -1⟩ : Vec2 ℝ) * (150 : ℝ))] :=
  have hvalid : ∃ (j : Nat) (e : Enemy ℝ), [Enemy.new (⟨400, 200⟩ : Vec2 ℝ)][j]? = some e
      ∧ isValidT (hitT Real.sqrt ⟨400, 300⟩ ⟨0, -1⟩ e) = true :=
    ⟨0, Enemy.new ⟨400, 200⟩, rfl, by
      simp only [hitT, Enemy.new, ray_example_shot, isValidT, FVal.ge0, FVal.lt, farT]
      norm_num⟩
  have hunit : length Real.sqrt (⟨0, -1⟩ : Vec2 ℝ) = 1 := by simp [length]
  ⟨hvalid, hunit,
    (hitscan_one_shot Real.sqrt ⟨400, 300⟩ ⟨0, -1⟩ [Enemy.new ⟨400, 200⟩]).2.2.1 hvalid,
    ((hitscan_one_shot Real.sqrt ⟨400, 300⟩ ⟨0, -1⟩ [Enemy.new ⟨400, 200⟩]).2.2.2
      ⟨400, 300⟩ ⟨0, -1⟩ hunit).1⟩

/-! ## Fire control -/

theorem firePhase_fireCooldown (sqrt : K → K) (inp : Input K) (g : Game K) :
    (firePhase sqrt inp g).fireCooldown
      = if shotFired inp g = true then 0.12 else coolDown g.fireCooldown inp.dt := by
  unfold firePhase shotFired
  by_cases h : (inp.mouseLeftDown && decide (coolDown g.fireCooldown inp.dt ≤ 0)) = true
  · simp only [h, if_true]
  · simp only [h]
    rfl

theorem spawnPhase_fireCooldown (rand : Nat → Nat) (g : Game K) :
    (spawnPhase rand g).fireCooldown = g.fireCooldown := by
  simp only [spawnPhase, spawnEnemy]
  split_ifs <;> rfl

theorem step_fireCooldown (sqrt : K → K) (rand : Nat → Nat) (inp : Input K) (g : Game K) :
    (step sqrt rand inp g).fireCooldown
      = if shotFired inp g = true then 0.12 else coolDown g.fireCooldown inp.dt := by
  unfold step
  rw [spawnPhase_fireCooldown]
  show (firePhase sqrt inp (steerPhase sqrt inp (movePhase sqrt inp g))).fireCooldown = _
  rw [firePhase_fireCooldown]
  rfl

/-- Cooldown after frames without a shot: while it is positive it is the reload
interval `R` minus the elapsed time `S`; once it is not, at least `R` has elapsed. -/
theorem run_cooldown_inv (sqrt : K → K) (rand : Nat → Nat) (R : K) (mids : List (Input K)) :
    ∀ (g : Game K) (S : K),
      ((0 < g.fireCooldown ∧ g.fireCooldown = R - S) ∨ (g.fireCooldown ≤ 0 ∧ R ≤ S)) →
      (∀ f ∈ mids, 0 ≤ f.dt) →
      (∀ b ∈ shots sqrt rand mids g, b = false) →
      ((0 < (run sqrt rand mids g).fireCooldown
          ∧ (run sqrt rand mids g).fireCooldown = R - (S + totalDt mids))
        ∨ ((run sqrt rand mids g).fireCooldown ≤ 0 ∧ R ≤ S + totalDt mids)) := by
  induction mids with
  | nil =>
    intro g S hinv _ _
    simpa [run, totalDt] using hinv
  | cons f rest ih =>
    intro g S hinv hdt hno
    have hf : shotFired f g = false := hno _ (by simp [shots])
    have hfdt : 0 ≤ f.dt := hdt f (by simp)
    have hcd : (step sqrt rand f g).fireCooldown = coolDown g.fireCooldown f.dt := by
      rw [step_fireCooldown, hf]
      simp
    have hinv2 : (0 < (step sqrt rand f g).fireCooldown
          ∧ (step sqrt rand f g).fireCooldown = R - (S + f.dt))
        ∨ ((step sqrt rand f g).fireCooldown ≤ 0 ∧ R ≤ S + f.dt) := by
      rw [hcd]
      unfold coolDown
      rcases hinv with ⟨hpos, heq⟩ | ⟨hle, hR⟩
      · rw [if_pos hpos]
        by_cases h2 : 0 < g.fireCooldown - f.dt
        · left
          exact ⟨h2, by rw [heq]; ring⟩
        · right
          exact ⟨not_lt.mp h2, by linarith [not_lt.mp h2]⟩
      · rw [if_neg (not_lt.mpr hle)]
        right
        exact ⟨hle, by linarith⟩
    have h3 := ih (step sqrt rand f g) (S + f.dt) hinv2
      (fun f2 hf2 => hdt f2 (by simp [hf2]))
      (fun b hb => hno b (by simp [shots, hb]))
    have htot : totalDt (f :: rest) = f.dt + totalDt rest := by simp [totalDt]
    rw [htot, ← add_assoc]
    exact h3

/-- C6 as amended: cooldown gating in exact arithmetic, the reload interval being
exactly 0.12 and the subtractions unrounded.  After a frame in which a shot is fired, let frames with
`dt >= 0` follow in which no shot is fired, and then a frame with `dt >= 0` in which
fire is held.  That frame fires a shot if and only if the cumulative `dt` of the
frames after the shot frame, the attempt frame included, is at least 0.12; with
less than 0.12 accumulated it fires none. -/
theorem cooldown_gating (sqrt : K → K) (rand : Nat → Nat) (g : Game K) (shot : Input K)
    (mids : List (Input K)) (att : Input K)
    (hshot : shotFired shot g = true)
    (hmids : ∀ f ∈ mids, 0 ≤ f.dt) (hatt : 0 ≤ att.dt)
    (hno : ∀ b ∈ shots sqrt rand mids (step sqrt rand shot g), b = false)
    (hheld : att.mouseLeftDown = true) :
    (shotFired att (run sqrt rand mids (step sqrt rand shot g)) = true
        ↔ 0.12 ≤ totalDt mids + att.dt)
      ∧ (totalDt mids + att.dt < 0.12 →
          shotFired att (run sqrt rand mids (step sqrt rand shot g)) = false) := by
  have hcd : (step sqrt rand shot g).fireCooldown = 0.12 := by
    rw [step_fireCooldown, hshot]
    simp
  have hpos : (0 : K) < 0.12 := by norm_num
  have hinv := run_cooldown_inv sqrt rand 0.12 mids (step sqrt rand shot g) 0
    (Or.inl ⟨by rw [hcd]; exact hpos, by rw [hcd]; ring⟩) hmids hno
  rw [zero_add] at hinv
  have hiff : shotFired att (run sqrt rand mids (step sqrt rand shot g)) = true
      ↔ 0.12 ≤ totalDt mids + att.dt := by
    simp only [shotFired, hheld, Bool.true_and, decide_eq_true_eq]
    generalize (run sqrt rand mids (step sqrt rand shot g)).fireCooldown = c at hinv ⊢
    generalize (0.12 : K) = R at hinv ⊢
    unfold coolDown
    rcases hinv with ⟨hp, he⟩ | ⟨hle, hR⟩
    · rw [if_pos hp]
      constructor <;> intro h <;> linarith
    · rw [if_neg (not_lt.mpr hle)]
      exact ⟨fun _ => by linarith, fun _ => hle⟩
  refine ⟨hiff, fun hlt => ?_⟩
  cases hsf : shotFired att (run sqrt rand mids (step sqrt rand shot g)) with
  | false => rfl
  | true => exact absurd (hiff.1 hsf) (not_le.mpr hlt)

/-- Witness of C6 as amended: a shot at cooldown 0, then a frame of 0.05 s without fire held,
then an attempt frame of 0.1 s: 0.15 s have accumulated and the attempt fires. -/
theorem cooldown_gating_witness :
    shotFired (⟨false, false, false, false, true, 0, 0, 0⟩ : Input ℝ)
        (⟨Player.new, [], 0, 0⟩ : Game ℝ) = true
      ∧ (∀ f ∈ [(⟨false, false, false, false, false, 0, 0, 0.05⟩ : Input ℝ)], 0 ≤ f.dt)
      ∧ (0 : ℝ) ≤ (⟨false, false, false, false, true, 0, 0, 0.1⟩ : Input ℝ).dt
      ∧ (∀ b ∈ shots Real.sqrt (fun _ => 0)
            [(⟨false, false, false, false, false, 0, 0, 0.05⟩ : Input ℝ)]
            (step Real.sqrt (fun _ => 0) ⟨false, false, false, false, true, 0, 0, 0⟩
              ⟨Player.new, [], 0, 0⟩), b = false)
      ∧ (⟨false, false, false, false, true, 0, 0, 0.1⟩ : Input ℝ).mouseLeftDown = true
      ∧ shotFired (⟨false, false, false, false, true, 0, 0, 0.1⟩ : Input ℝ)
          (run Real.sqrt (fun _ => 0)
            [(⟨false, false, false, false, false, 0, 0, 0.05⟩ : Input ℝ)]
            (step Real.sqrt (fun _ => 0) ⟨false, false, false, false, true, 0, 0, 0⟩
              ⟨Player.new, [], 0, 0⟩)) = true :=
  have h1 : shotFired (⟨false, false, false, false, true, 0, 0, 0⟩ : Input ℝ)
      (⟨Player.new, [], 0, 0⟩ : Game ℝ) = true := by
    simp [shotFired, coolDown]
  have h2 : ∀ f ∈ [(⟨false, false, false, false, false, 0, 0, 0.05⟩ : Input ℝ)], 0 ≤ f.dt := by
    intro f hf
    simp only [List.mem_singleton] at hf
    rw [hf]
    norm_num
  have h3 : (0 : ℝ) ≤ (⟨false, false, false, false, true, 0, 0, 0.1⟩ : Input ℝ).dt := by
    norm_num
  have h4 : ∀ b ∈ shots Real.sqrt (fun _ => 0)
      [(⟨false, false, false, false, false, 0, 0, 0.05⟩ : Input ℝ)]
      (step Real.sqrt (fun _ => 0) ⟨false, false, false, false, true, 0, 0, 0⟩
        ⟨Player.new, [], 0, 0⟩), b = false := by
    intro b hb
    simpa [shots, shotFired] using hb
  ⟨h1, h2, h3, h4, rfl,
    (cooldown_gating Real.sqrt (fun _ => 0) ⟨Player.new, [], 0, 0⟩
      ⟨false, false, false, false, true, 0, 0, 0⟩
      [⟨false, false, false, false, false, 0, 0, 0.05⟩]
      ⟨false, false, false, false, true, 0, 0, 0.1⟩ h1 h2 h3 h4 rfl).1.2
      (by norm_num [totalDt])⟩

/-! ## Player movement -/

theorem clampToWindow_bounds (pos : Vec2 K) :
    0 ≤ (clampToWindow pos).x ∧ (clampToWindow pos).x ≤ 800
      ∧ 0 ≤ (clampToWindow pos).y ∧ (clampToWindow pos).y ≤ 600 := by
  have hW : ((WINDOW_W : Nat) : K) = 800 := by simp [WINDOW_W]
  have hH : ((WINDOW_H : Nat) : K) = 600 := by simp [WINDOW_H]
  simp only [clampToWindow, hW, hH]
  split_ifs <;> simp_all

theorem step_player (sqrt : K → K) (rand : Nat → Nat) (inp : Input K) (g : Game K) :
    (step sqrt rand inp g).player = (movePhase sqrt inp g).player := by
  have hspawn : ∀ h : Game K, (spawnPhase rand h).player = h.player := by
    intro h
    simp only [spawnPhase, spawnEnemy]
    split_ifs <;> rfl
  have hfire : ∀ h : Game K, (firePhase sqrt inp h).player = h.player := by
    intro h
    simp only [firePhase]
    split_ifs <;> rfl
  unfold step
  rw [hspawn]
  show (firePhase sqrt inp (steerPhase sqrt inp (movePhase sqrt inp g))).player = _
  rw [hfire]
  rfl

/-- One coordinate of the binary32 clamping: a value that is not NaN ends between
0 and the bound. -/
theorem clamp_coordinate (x : F32) (B : Int) (hB : 0 ≤ B) (hx : x ≠ F32.nan) :
    F32.le (F32.fin 0)
        (if F32.lt (F32.fin B) (if F32.lt x (F32.fin 0) = true then F32.fin 0 else x) = true
          then F32.fin B else (if F32.lt x (F32.fin 0) = true then F32.fin 0 else x)) = true
      ∧ F32.le
        (if F32.lt (F32.fin B) (if F32.lt x (F32.fin 0) = true then F32.fin 0 else x) = true
          then F32.fin B else (if F32.lt x (F32.fin 0) = true then F32.fin 0 else x))
        (F32.fin B) = true := by
  cases x with
  | fin k =>
    by_cases h1 : k < 0
    · simp [F32.lt, F32.le, h1, hB, not_lt.mpr hB]
    · by_cases h2 : B < k
      · simp [F32.lt, F32.le, h1, h2, hB]
      · simp [F32.lt, F32.le, h1, h2, not_lt.mp h1, not_lt.mp h2]
  | pinf => simp [F32.lt, F32.le, hB]
  | ninf => simp [F32.lt, F32.le, hB, not_lt.mpr hB]
  | nan => exact absurd rfl hx

/-- The binary32 clamping puts every position without a NaN coordinate, finite or
infinite, into the arena. -/
theorem B32.clamp_bounds (pos : Vec2 F32) (hx : pos.x ≠ F32.nan) (hy : pos.y ≠ F32.nan) :
    F32.le (F32.ofRat 0 1) (B32.clampToWindow pos).x = true
      ∧ F32.le (B32.clampToWindow pos).x (F32.ofRat 800 1) = true
      ∧ F32.le (F32.ofRat 0 1) (B32.clampToWindow pos).y = true
      ∧ F32.le (B32.clampToWindow pos).y (F32.ofRat 600 1) = true := by
  have h0 : F32.ofRat 0 1 = F32.fin 0 := by decide
  have hW : F32.ofRat WINDOW_W 1 = F32.fin (800 * 2 ^ 149) := by decide
  have hH : F32.ofRat WINDOW_H 1 = F32.fin (600 * 2 ^ 149) := by decide
  have h800 : F32.ofRat 800 1 = F32.fin (800 * 2 ^ 149) := by decide
  have h600 : F32.ofRat 600 1 = F32.fin (600 * 2 ^ 149) := by decide
  have hxb := clamp_coordinate pos.x (800 * 2 ^ 149) (by positivity) hx
  have hyb := clamp_coordinate pos.y (600 * 2 ^ 149) (by positivity) hy
  obtain ⟨x, y⟩ := pos
  simp only [B32.clampToWindow, h0, hW, hH, h800, h600] at hxb hyb ⊢
  refine ⟨?_, ?_, ?_, ?_⟩
  · convert hxb.1 using 2
    split_ifs <;> rfl
  · convert hxb.2 using 2
    split_ifs <;> rfl
  · convert hyb.1 using 2
    split_ifs <;> rfl
  · convert hyb.2 using 2
    split_ifs <;> rfl

/-- C7 as amended: arena invariant of the player.  In exact arithmetic, for every
game state, every combination of the four key flags and every `dt` of any sign or
size, the player position after the movement part of a step, which is also the
position after the whole step, has `0 <= x <= 800` and `0 <= y <= 600`.  In
binary32 the same bounds hold after the movement part for every player, flags and
`dt` for which the unclamped position `player.pos + v * (speed * dt)` has no NaN
coordinate (an infinite coordinate is clamped like a finite one). -/
theorem player_stays_in_arena (sqrt : K → K) (rand : Nat → Nat) (inp : Input K) (g : Game K) :
    (0 ≤ (movePhase sqrt inp g).player.pos.x ∧ (movePhase sqrt inp g).player.pos.x ≤ 800
        ∧ 0 ≤ (movePhase sqrt inp g).player.pos.y ∧ (movePhase sqrt inp g).player.pos.y ≤ 600)
      ∧ (0 ≤ (step sqrt rand inp g).player.pos.x ∧ (step sqrt rand inp g).player.pos.x ≤ 800
        ∧ 0 ≤ (step sqrt rand inp g).player.pos.y
        ∧ (step sqrt rand inp g).player.pos.y ≤ 600)
      ∧ ∀ (inp32 : Input F32) (pl : Player F32),
          (B32.vadd pl.pos (B32.moveDelta inp32 pl.speed)).x ≠ F32.nan →
          (B32.vadd pl.pos (B32.moveDelta inp32 pl.speed)).y ≠ F32.nan →
          F32.le (F32.ofRat 0 1) (B32.movePhase inp32 pl).pos.x = true
            ∧ F32.le (B32.movePhase inp32 pl).pos.x (F32.ofRat 800 1) = true
            ∧ F32.le (F32.ofRat 0 1) (B32.movePhase inp32 pl).pos.y = true
            ∧ F32.le (B32.movePhase inp32 pl).pos.y (F32.ofRat 600 1) = true := by
  have hmove := clampToWindow_bounds (g.player.pos + moveDelta sqrt inp g.player.speed)
  rw [step_player]
  exact ⟨hmove, hmove, fun inp32 pl hx hy => B32.clamp_bounds _ hx hy⟩

/-- Witness of C7 as amended, in binary32: player at (400,300) with speed 280, `D`
held for `dt = 10`: the unclamped `x` is 3200, no coordinate is NaN, and the
position after the movement is (800, 300). -/
theorem player_stays_in_arena_witness :
    (B32.movePhase
        ⟨false, false, false, true, false, F32.ofRat 0 1, F32.ofRat 0 1, F32.ofRat 10 1⟩
        ⟨⟨F32.ofRat 400 1, F32.ofRat 300 1⟩, F32.ofRat 12 1, F32.ofRat 280 1⟩).pos.x
        = F32.ofRat 800 1
      ∧ (B32.movePhase
        ⟨false, false, false, true, false, F32.ofRat 0 1, F32.ofRat 0 1, F32.ofRat 10 1⟩
        ⟨⟨F32.ofRat 400 1, F32.ofRat 300 1⟩, F32.ofRat 12 1, F32.ofRat 280 1⟩).pos.y
        = F32.ofRat 300 1
      ∧ F32.le (F32.ofRat 0 1) (B32.movePhase
          ⟨false, false, false, true, false, F32.ofRat 0 1, F32.ofRat 0 1, F32.ofRat 10 1⟩
          ⟨⟨F32.ofRat 400 1, F32.ofRat 300 1⟩, F32.ofRat 12 1, F32.ofRat 280 1⟩).pos.x = true :=
  ⟨by decide, by decide,
    ((player_stays_in_arena Real.sqrt (fun _ => 0)
      ⟨false, false, false, false, false, 0, 0, 0⟩ ⟨Player.new, [], 0, 0⟩).2.2
      ⟨false, false, false, true, false, F32.ofRat 0 1, F32.ofRat 0 1, F32.ofRat 10 1⟩
      ⟨⟨F32.ofRat 400 1, F32.ofRat 300 1⟩, F32.ofRat 12 1, F32.ofRat 280 1⟩
      (by decide) (by decide)).1⟩

/-! ## Cleanup -/

/-- Invariant of the backward loop: when the indices below `front.length` are
still to be visited, the tail `back` has been swept already and stays as it is. -/
theorem cleanupLoop_append (front : List (Enemy K)) :
    ∀ back : List (Enemy K),
      cleanupLoop front.length (front ++ back)
        = front.filter (fun e => decide (0 < e.hp)) ++ back := by
  induction front using List.reverseRecOn with
  | nil =>
    intro back
    simp [cleanupLoop]
  | append_singleton init e ih =>
    intro back
    have hlen : (init ++ [e]).length = init.length + 1 := by simp
    have hget : (init ++ [e] ++ back)[init.length]? = some e := by
      rw [List.append_assoc, List.getElem?_append_right (Nat.le_refl _)]
      simp
    rw [hlen, cleanupLoop, hget]
    by_cases hdead : e.hp ≤ 0
    · have herase : (init ++ [e] ++ back).eraseIdx init.length = init ++ back := by
        rw [List.append_assoc, List.eraseIdx_append_of_length_le (Nat.le_refl _)]
        simp
      simp only [hdead, if_true, herase, ih back]
      simp [List.filter_append, not_lt.mpr hdead]
    · simp only [hdead, if_false]
      rw [List.append_assoc, ih ([e] ++ back)]
      simp [List.filter_append, not_le.mp hdead]

theorem cleanup_eq_filter (es : List (Enemy K)) :
    cleanup es = es.filter (fun e => decide (0 < e.hp)) := by
  have h := cleanupLoop_append es []
  simpa [cleanup] using h

/-- C9: cleanup is an order-preserving filter.  For every enemy list the backward
erase loop returns exactly the enemies with health above zero, in their original
order: no enemy with health `<= 0` remains, every enemy with health `> 0` is kept
as it is, and the result is a sublist of the input. -/
theorem cleanup_refines_filter (es : List (Enemy K)) :
    cleanup es = cleanupSpec es
      ∧ (∀ e ∈ cleanup es, ¬ e.hp ≤ 0)
      ∧ (∀ e ∈ es, 0 < e.hp → e ∈ cleanup es)
      ∧ List.Sublist (cleanup es) es := by
  rw [cleanup_eq_filter]
  refine ⟨rfl, ?_, ?_, List.filter_sublist es⟩
  · intro e he
    have h := (List.mem_filter.1 he).2
    exact not_le.mpr (of_decide_eq_true h)
  · intro e he hpos
    exact List.mem_filter.2 ⟨he, decide_eq_true hpos⟩

/-- Witness of C9: of three enemies with health 1, 0 and -1 only the first stays. -/
theorem cleanup_refines_filter_witness :
    cleanup [(⟨⟨1, 2⟩, 18, 1⟩ : Enemy ℚ), ⟨⟨3, 4⟩, 18, 0⟩, ⟨⟨5, 6⟩, 18, -1⟩]
      = [(⟨⟨1, 2⟩, 18, 1⟩ : Enemy ℚ)] :=
  (cleanup_refines_filter
    [(⟨⟨1, 2⟩, 18, 1⟩ : Enemy ℚ), ⟨⟨3, 4⟩, 18, 0⟩, ⟨⟨5, 6⟩, 18, -1⟩]).1.trans
    (by simp [cleanupSpec])

/-! ## Population and health -/

/-- A shot changes nothing or lowers the health of one enemy by 1. -/
theorem hitscan_cases (sqrt : K → K) (p d : Vec2 K) (es : List (Enemy K)) :
    hitscan sqrt p d es = es
      ∨ ∃ (k : Nat) (ek : Enemy K), es[k]? = some ek
          ∧ hitscan sqrt p d es = es.set k { ek with hp := ek.hp - 1 } := by
  rcases scanLoop_spec sqrt p d es 0 (farT + 1) (-1) with
    ⟨_, hres⟩ | ⟨k, ek, v, hk, _, _, _, hres, _⟩
  · left
    simp [hitscan, bestIdx, hres]
  · right
    refine ⟨k, ek, hk, ?_⟩
    have hidx : bestIdx sqrt p d es = Int.ofNat k := by
      simp [bestIdx, hres]
    have hne : (Int.ofNat k) ≠ -1 := by
      intro h
      have h0 : (0 : Int) ≤ Int.ofNat k := Int.ofNat_nonneg k
      rw [h] at h0
      exact absurd h0 (by decide)
    have htn : (Int.ofNat k).toNat = k := rfl
    simp only [hitscan, hidx, hne, ne_eq, not_false_eq_true, if_true, htn, damage, hk]

theorem hitscan_length (sqrt : K → K) (p d : Vec2 K) (es : List (Enemy K)) :
    (hitscan sqrt p d es).length = es.length := by
  rcases hitscan_cases sqrt p d es with h | ⟨k, ek, _, h⟩
  · rw [h]
  · rw [h, List.length_set]

theorem firePhase_enemies (sqrt : K → K) (inp : Input K) (g : Game K) :
    (firePhase sqrt inp g).enemies = g.enemies
      ∨ ∃ p d, (firePhase sqrt inp g).enemies = hitscan sqrt p d g.enemies := by
  simp only [firePhase]
  split_ifs
  · right
    exact ⟨_, _, rfl⟩
  · left
    rfl

theorem spawnPhase_enemies (rand : Nat → Nat) (g : Game K) :
    (spawnPhase rand g).enemies = g.enemies
      ∨ (g.enemies.length < 6
          ∧ ∃ pos, (spawnPhase rand g).enemies = g.enemies ++ [Enemy.new pos]) := by
  simp only [spawnPhase, spawnEnemy]
  split_ifs with h1 h2
  · right
    exact ⟨h1, _, rfl⟩
  · left
    rfl
  · left
    rfl

theorem cleanup_length_le (es : List (Enemy K)) : (cleanup es).length ≤ es.length := by
  rw [cleanup_eq_filter]
  exact List.length_filter_le _ es

theorem step_enemies_length (sqrt : K → K) (rand : Nat → Nat) (inp : Input K) (g : Game K)
    (h : g.enemies.length ≤ 6) : (step sqrt rand inp g).enemies.length ≤ 6 := by
  have hsteer : (steerPhase sqrt inp (movePhase sqrt inp g)).enemies.length
      = g.enemies.length := by
    simp [steerPhase, movePhase]
  have hfire : (firePhase sqrt inp (steerPhase sqrt inp (movePhase sqrt inp g))).enemies.length
      = g.enemies.length := by
    rcases firePhase_enemies sqrt inp (steerPhase sqrt inp (movePhase sqrt inp g)) with
      h1 | ⟨p, d, h1⟩
    · rw [h1, hsteer]
    · rw [h1, hitscan_length, hsteer]
  have hclean : (cleanupPhase
      (firePhase sqrt inp (steerPhase sqrt inp (movePhase sqrt inp g)))).enemies.length ≤ 6 := by
    have h2 := cleanup_length_le
      (firePhase sqrt inp (steerPhase sqrt inp (movePhase sqrt inp g))).enemies
    rw [hfire] at h2
    exact le_trans h2 h
  unfold step
  rcases spawnPhase_enemies rand
      (cleanupPhase (firePhase sqrt inp (steerPhase sqrt inp (movePhase sqrt inp g)))) with
    h3 | ⟨hlt, pos, h3⟩
  · rw [h3]
    exact hclean
  · rw [h3, List.length_append, List.length_singleton]
    exact hlt

/-- C8: population cap.  With 6 or more enemies the spawn step changes nothing;
with fewer it leaves the list as it is or appends one enemy; hence a run that
starts with at most 6 enemies has at most 6 after every step, for every sequence
of values of `std::rand()`, every sequence of inputs and every `dt`. -/
theorem population_cap (sqrt : K → K) (rand : Nat → Nat) (g : Game K)
    (inps : List (Input K)) :
    (6 ≤ g.enemies.length → spawnPhase rand g = g)
      ∧ (g.enemies.length < 6 →
          (spawnPhase rand g).enemies = g.enemies
            ∨ ∃ e, (spawnPhase rand g).enemies = g.enemies ++ [e])
      ∧ (g.enemies.length ≤ 6 → (run sqrt rand inps g).enemies.length ≤ 6) := by
  refine ⟨?_, ?_, ?_⟩
  · intro h
    simp only [spawnPhase, not_lt.mpr h, if_false]
  · intro _
    rcases spawnPhase_enemies rand g with h | ⟨_, pos, h⟩
    · exact Or.inl h
    · exact Or.inr ⟨_, h⟩
  · induction inps generalizing g with
    | nil =>
      intro h
      exact h
    | cons inp rest ih =>
      intro h
      exact ih (step sqrt rand inp g) (step_enemies_length sqrt rand inp g h)

/-- Witness of C8: the game as the main loop is entered (6 enemies) and one frame. -/
theorem population_cap_witness :
    (initGame (fun _ => 0) : Game ℝ).enemies.length ≤ 6
      ∧ (run Real.sqrt (fun _ => 0) [⟨true, false, true, false, true, 10, 20, 0.016⟩]
          (initGame (fun _ => 0))).enemies.length ≤ 6 :=
  have h6 : (initGame (fun _ => 0) : Game ℝ).enemies.length ≤ 6 := by
    simp [initGame, spawnMany, spawnEnemy]
  ⟨h6, (population_cap Real.sqrt (fun _ => 0) (initGame (fun _ => 0))
    [⟨true, false, true, false, true, 10, 20, 0.016⟩]).2.2 h6⟩

/-- Cleanup of a list in which one enemy has health 0 and all others health 1. -/
theorem cleanup_one_dead (l1 l2 : List (Enemy K)) (x : Enemy K)
    (h1 : ∀ e ∈ l1, e.hp = 1) (h2 : ∀ e ∈ l2, e.hp = 1) (hx : x.hp = 0) :
    cleanup (l1 ++ x :: l2) = l1 ++ l2
      ∧ (l1 ++ x :: l2).eraseIdx l1.length = l1 ++ l2 := by
  constructor
  · rw [cleanup_eq_filter, List.filter_append, List.filter_cons]
    have hf1 : l1.filter (fun e => decide (0 < e.hp)) = l1 :=
      List.filter_eq_self.2 (fun e he => by simp [h1 e he])
    have hf2 : l2.filter (fun e => decide (0 < e.hp)) = l2 :=
      List.filter_eq_self.2 (fun e he => by simp [h2 e he])
    rw [hf1, hf2]
    simp [hx]
  · rw [List.eraseIdx_append_of_length_le (Nat.le_refl _)]
    simp

theorem steerPhase_hp (sqrt : K → K) (inp : Input K) (g : Game K)
    (h : ∀ e ∈ g.enemies, e.hp = 1) :
    ∀ e ∈ (steerPhase sqrt inp (movePhase sqrt inp g)).enemies, e.hp = 1 := by
  intro e he
  simp only [steerPhase, movePhase, List.mem_map] at he
  obtain ⟨e0, he0, heq⟩ := he
  rw [← heq]
  exact h e0 he0

/-- After the fire phase on enemies of health 1: either nothing changed, or the
list splits around one enemy whose health went from 1 to 0. -/
theorem firePhase_full_health (sqrt : K → K) (inp : Input K) (g : Game K)
    (h : ∀ e ∈ g.enemies, e.hp = 1) :
    (firePhase sqrt inp g).enemies = g.enemies
      ∨ ∃ (l1 l2 : List (Enemy K)) (ek : Enemy K), g.enemies = l1 ++ ek :: l2
          ∧ (firePhase sqrt inp g).enemies = l1 ++ { ek with hp := 0 } :: l2 := by
  rcases firePhase_enemies sqrt inp g with h1 | ⟨p, d, h1⟩
  · exact Or.inl h1
  · rcases hitscan_cases sqrt p d g.enemies with h2 | ⟨k, ek, hk, h2⟩
    · left
      rw [h1, h2]
    · right
      obtain ⟨hlt, hget⟩ := List.getElem?_eq_some.1 hk
      have hsplit : g.enemies = g.enemies.take k ++ ek :: g.enemies.drop (k + 1) := by
        rw [← hget, ← List.drop_eq_getElem_cons hlt, List.take_append_drop]
      have hek : ek.hp = 1 := h ek (List.getElem?_mem hk)
      refine ⟨g.enemies.take k, g.enemies.drop (k + 1), ek, hsplit, ?_⟩
      rw [h1, h2, List.set_eq_take_append_cons_drop, if_pos hlt, hek]
      simp

theorem getElem?_around {α : Type} (l1 l2 : List α) (a b : α) (k : Nat)
    (hk : k ≠ l1.length) : (l1 ++ a :: l2)[k]? = (l1 ++ b :: l2)[k]? := by
  rcases Nat.lt_or_gt_of_ne hk with hlt | hgt
  · rw [List.getElem?_append_left hlt, List.getElem?_append_left hlt]
  · rw [List.getElem?_append_right (Nat.le_of_lt hgt),
      List.getElem?_append_right (Nat.le_of_lt hgt)]
    obtain ⟨m, hm⟩ : ∃ m, k - l1.length = m + 1 := ⟨k - l1.length - 1, by omega⟩
    rw [hm]
    simp

theorem step_hp (sqrt : K → K) (rand : Nat → Nat) (inp : Input K) (g : Game K)
    (h : ∀ e ∈ g.enemies, e.hp = 1) : ∀ e ∈ (step sqrt rand inp g).enemies, e.hp = 1 := by
  have h2 := steerPhase_hp sqrt inp g h
  have h3 : ∀ e ∈ (firePhase sqrt inp (steerPhase sqrt inp (movePhase sqrt inp g))).enemies,
      e.hp = 1 ∨ e.hp = 0 := by
    intro e he
    rcases firePhase_full_health sqrt inp _ h2 with heq | ⟨l1, l2, ek, hsplit, heq⟩
    · rw [heq] at he
      exact Or.inl (h2 e he)
    · rw [heq] at he
      rw [hsplit] at h2
      simp only [List.mem_append, List.mem_cons] at he h2
      rcases he with he | he | he
      · exact Or.inl (h2 e (Or.inl he))
      · right
        rw [he]
      · exact Or.inl (h2 e (Or.inr (Or.inr he)))
  have h4 : ∀ e ∈ (cleanupPhase
      (firePhase sqrt inp (steerPhase sqrt inp (movePhase sqrt inp g)))).enemies, e.hp = 1 := by
    intro e he
    simp only [cleanupPhase, cleanup_eq_filter, List.mem_filter, decide_eq_true_eq] at he
    rcases h3 e he.1 with h1 | h0
    · exact h1
    · exact absurd he.2 (by rw [h0]; exact lt_irrefl 0)
  intro e he
  unfold step at he
  rcases spawnPhase_enemies rand
      (cleanupPhase (firePhase sqrt inp (steerPhase sqrt inp (movePhase sqrt inp g)))) with
    h5 | ⟨_, pos, h5⟩
  · rw [h5] at he
    exact h4 e he
  · rw [h5] at he
    simp only [List.mem_append, List.mem_singleton] at he
    rcases he with he | he
    · exact h4 e he
    · rw [he]
      rfl

theorem normalize_example :
    normalize Real.sqrt ((⟨400, 100⟩ : Vec2 ℝ) - ⟨400, 300⟩) = ⟨0, -1⟩ := by
  have h200 : Real.sqrt 40000 = 200 := sqrt_of_mul_self _ 200 (by norm_num) (by norm_num)
  simp only [normalize, length, Vec2.sub_def]
  norm_num [h200]

theorem hitscan_example :
    hitscan Real.sqrt (⟨400, 300⟩ : Vec2 ℝ) ⟨0, -1⟩ [Enemy.new ⟨400, 200⟩]
      = [⟨⟨400, 200⟩, 18, 0⟩] := by
  simp [hitscan, bestIdx, scanLoop, Enemy.new, ray_example_shot, FVal.ge0, FVal.lt, farT,
    damage]
  norm_num

theorem cleanup_example : cleanup [(⟨⟨400, 200⟩, 18, 0⟩ : Enemy ℝ)] = [] := by
  simp [cleanup_eq_filter]

/-- The example of the specification as one frame: player at (400,300), one enemy
at (400,200), fire held with the pointer at (400,100), cooldown 0, `dt = 0`, and
`std::rand()` returning 99 so that nothing is spawned. -/
theorem step_example :
    (step Real.sqrt (fun _ => 99) ⟨false, false, false, false, true, 400, 100, 0⟩
      (⟨Player.new, [Enemy.new ⟨400, 200⟩], 0, 0⟩ : Game ℝ)).enemies = [] := by
  have hmove : movePhase Real.sqrt ⟨false, false, false, false, true, 400, 100, 0⟩
      (⟨Player.new, [Enemy.new ⟨400, 200⟩], 0, 0⟩ : Game ℝ)
      = ⟨Player.new, [Enemy.new ⟨400, 200⟩], 0, 0⟩ := by
    simp [movePhase, moveDelta, moveIntent, length, clampToWindow, Player.new,
      WINDOW_W, WINDOW_H, Vec2.add_def, Vec2.scale_def]
    norm_num
  have hsteer : steerPhase Real.sqrt ⟨false, false, false, false, true, 400, 100, 0⟩
      (⟨Player.new, [Enemy.new ⟨400, 200⟩], 0, 0⟩ : Game ℝ)
      = ⟨Player.new, [Enemy.new ⟨400, 200⟩], 0, 0⟩ := by
    simp [steerPhase, steerEnemy, Enemy.new, Player.new, Vec2.add_def, Vec2.scale_def]
  have hfire : firePhase Real.sqrt ⟨false, false, false, false, true, 400, 100, 0⟩
      (⟨Player.new, [Enemy.new ⟨400, 200⟩], 0, 0⟩ : Game ℝ)
      = ⟨Player.new, [⟨⟨400, 200⟩, 18, 0⟩], 0.12, 0⟩ := by
    have hd := normalize_example
    have hh := hitscan_example
    simp only [Player.new] at hd hh ⊢
    simp [firePhase, coolDown, hd, hh]
  unfold step
  rw [hmove, hsteer, hfire]
  simp [cleanupPhase, cleanup_example, spawnPhase]

/-- C10: one-hit kill and health invariant.  If every enemy has health 1 at the
start of a step, then an enemy whose health the fire phase changes had health 1,
has health 0 afterwards, is the entry the cleanup erases, and does not occur in
the enemy list at the end of the step; and every enemy in the list at the end of
the step has health exactly 1, so its health fraction lies in [0,1].  Example over
the reals: player at (400,300), one enemy at (400,200) with radius 18, aim
direction (0,-1): `ray_vs_circle` gives t = 82, the shot takes the enemy from
health 1 to 0, cleanup removes it, and the whole frame ends with no enemy. -/
theorem one_hit_kill (sqrt : K → K) (rand : Nat → Nat) (inp : Input K) (g : Game K)
    (hfull : ∀ e ∈ g.enemies, e.hp = 1) :
    (∀ (k : Nat) (e2 e3 : Enemy K),
        (steerPhase sqrt inp (movePhase sqrt inp g)).enemies[k]? = some e2 →
        (firePhase sqrt inp (steerPhase sqrt inp (movePhase sqrt inp g))).enemies[k]?
          = some e3 →
        e3.hp ≠ e2.hp →
          e2.hp = 1 ∧ e3.hp = 0
            ∧ (cleanupPhase
                (firePhase sqrt inp (steerPhase sqrt inp (movePhase sqrt inp g)))).enemies
              = (firePhase sqrt inp
                  (steerPhase sqrt inp (movePhase sqrt inp g))).enemies.eraseIdx k
            ∧ e3 ∉ (step sqrt rand inp g).enemies)
      ∧ (∀ e ∈ (step sqrt rand inp g).enemies, e.hp = 1 ∧ 0 ≤ e.hp / 1 ∧ e.hp / 1 ≤ 1)
      ∧ (ray_vs_circle Real.sqrt (⟨400, 300⟩ : Vec2 ℝ) ⟨0, -1⟩ ⟨400, 200⟩ 18 = FVal.fin 82
          ∧ normalize Real.sqrt ((⟨400, 100⟩ : Vec2 ℝ) - ⟨400, 300⟩) = ⟨0, -1⟩
          ∧ hitscan Real.sqrt (⟨400, 300⟩ : Vec2 ℝ) ⟨0, -1⟩ [Enemy.new ⟨400, 200⟩]
              = [⟨⟨400, 200⟩, 18, 0⟩]
          ∧ cleanup [(⟨⟨400, 200⟩, 18, 0⟩ : Enemy ℝ)] = []
          ∧ (step Real.sqrt (fun _ => 99) ⟨false, false, false, false, true, 400, 100, 0⟩
              (⟨Player.new, [Enemy.new ⟨400, 200⟩], 0, 0⟩ : Game ℝ)).enemies = []) := by
  have hend := step_hp sqrt rand inp g hfull
  refine ⟨?_, ?_, ray_example_shot, normalize_example, hitscan_example, cleanup_example,
    step_example⟩
  · intro k e2 e3 h2 h3 hne
    have hsteer := steerPhase_hp sqrt inp g hfull
    rcases firePhase_full_health sqrt inp _ hsteer with heq | ⟨l1, l2, ek, hsplit, heq⟩
    · rw [heq, h2] at h3
      exact absurd (congrArg Enemy.hp (Option.some.inj h3)).symm hne
    · rw [heq] at h3
      rw [hsplit] at h2 hsteer
      by_cases hk : k = l1.length
      · subst hk
        rw [List.getElem?_append_right (Nat.le_refl _)] at h2 h3
        simp only [Nat.sub_self, List.getElem?_cons_zero, Option.some.injEq] at h2 h3
        have he2 : e2.hp = 1 := by
          rw [← h2]
          exact hsteer ek (by simp)
        have he3 : e3.hp = 0 := by
          rw [← h3]
        have hdead := cleanup_one_dead l1 l2 { ek with hp := 0 }
          (fun e he => hsteer e (by simp [he])) (fun e he => hsteer e (by simp [he])) rfl
        refine ⟨he2, he3, ?_, ?_⟩
        · simp only [cleanupPhase, heq]
          rw [hdead.1, hdead.2]
        · intro hmem
          have h1 := hend e3 hmem
          rw [he3] at h1
          exact zero_ne_one h1
      · rw [getElem?_around l1 l2 ek { ek with hp := 0 } k hk, h3] at h2
        exact absurd (congrArg Enemy.hp (Option.some.inj h2)) hne
  · intro e he
    have h1 := hend e he
    rw [h1]
    norm_num

/-- Witness of C10: the example state with `std::rand()` returning 0, so that the
frame ends with one freshly spawned enemy. -/
theorem one_hit_kill_witness :
    (∀ e ∈ (⟨Player.new, [Enemy.new ⟨400, 200⟩], 0, 0⟩ : Game ℝ).enemies, e.hp = 1)
      ∧ ∀ e ∈ (step Real.sqrt (fun _ => 0) ⟨false, false, false, false, true, 400, 100, 0⟩
          (⟨Player.new, [Enemy.new ⟨400, 200⟩], 0, 0⟩ : Game ℝ)).enemies,
          e.hp = 1 ∧ 0 ≤ e.hp / 1 ∧ e.hp / 1 ≤ 1 :=
  have h1 : ∀ e ∈ (⟨Player.new, [Enemy.new ⟨400, 200⟩], 0, 0⟩ : Game ℝ).enemies,
      e.hp = 1 := by
    intro e he
    simp only [List.mem_singleton] at he
    rw [he]
    rfl
  ⟨h1, (one_hit_kill Real.sqrt (fun _ => 0) ⟨false, false, false, false, true, 400, 100, 0⟩
    ⟨Player.new, [Enemy.new ⟨400, 200⟩], 0, 0⟩ h1).2.1⟩

/-! ## C11: degenerate aim -/

/-- With the zero vector as direction the divisor `2*a` is zero and both quotients
are `0/0`, that is NaN: `ray_vs_circle` returns `-1`. -/
theorem ray_vs_circle_zero_dir (sqrt : K → K) (hs : sqrt 0 = 0) (p c : Vec2 K) (r : K) :
    ray_vs_circle sqrt p ⟨0, 0⟩ c r = FVal.fin (-1) := by
  simp [ray_vs_circle, hs, fdiv, FVal.ge0]

theorem hitscan_all_miss (sqrt : K → K) (p d : Vec2 K) (es : List (Enemy K))
    (hmiss : ∀ e ∈ es, hitT sqrt p d e = FVal.fin (-1)) : hitscan sqrt p d es = es := by
  rcases scanLoop_spec sqrt p d es 0 (farT + 1) (-1) with
    ⟨_, hres⟩ | ⟨k, ek, v, hk, hv, hv0, _, _, _⟩
  · simp [hitscan, bestIdx, hres]
  · rw [hmiss ek (List.getElem?_mem hk)] at hv
    have h1 : (-1 : K) = v := FVal.fin.inj hv
    rw [← h1] at hv0
    exact absurd hv0 (by norm_num)

/-- C11: degenerate aim.  When the aim-target point equals the player position
(and `sqrt 0 = 0`), the aim direction `normalize(mouse - p)` is the zero vector;
the unguarded quotient in `ray_vs_circle` is then `0/0`, NaN, which fails
`t >= 0`, so `ray_vs_circle` returns `-1` for every circle, also one that contains
the player; the shot leaves every enemy list unchanged, and so does the whole
fire phase. -/
theorem degenerate_aim_no_hit (sqrt : K → K) (inp : Input K) (g : Game K)
    (hs : sqrt 0 = 0)
    (hx : inp.mouseX = g.player.pos.x) (hy : inp.mouseY = g.player.pos.y) :
    normalize sqrt ((⟨inp.mouseX, inp.mouseY⟩ : Vec2 K) - g.player.pos) = ⟨0, 0⟩
      ∧ fdiv (0 : K) 0 = FVal.nan
      ∧ (∀ (c : Vec2 K) (r : K),
          ray_vs_circle sqrt g.player.pos ⟨0, 0⟩ c r = FVal.fin (-1))
      ∧ (∀ es : List (Enemy K), hitscan sqrt g.player.pos
            (normalize sqrt ((⟨inp.mouseX, inp.mouseY⟩ : Vec2 K) - g.player.pos)) es = es)
      ∧ (firePhase sqrt inp g).enemies = g.enemies := by
  have hnorm : normalize sqrt ((⟨inp.mouseX, inp.mouseY⟩ : Vec2 K) - g.player.pos)
      = ⟨0, 0⟩ := by
    simp [normalize, length, Vec2.sub_def, hx, hy, hs]
  have hscan : ∀ es : List (Enemy K), hitscan sqrt g.player.pos ⟨0, 0⟩ es = es :=
    fun es => hitscan_all_miss sqrt _ _ es
      (fun e _ => ray_vs_circle_zero_dir sqrt hs g.player.pos e.pos e.radius)
  refine ⟨hnorm, by simp [fdiv], fun c r => ray_vs_circle_zero_dir sqrt hs _ c r, ?_, ?_⟩
  · intro es
    rw [hnorm]
    exact hscan es
  · simp only [firePhase]
    split_ifs
    · show hitscan sqrt g.player.pos
          (normalize sqrt ((⟨inp.mouseX, inp.mouseY⟩ : Vec2 K) - g.player.pos)) g.enemies
        = g.enemies
      rw [hnorm]
      exact hscan g.enemies
    · rfl

/-- Witness of C11: the player at (400,300) inside the circle of an enemy at
(405,300), fire held with the pointer on the player. -/
theorem degenerate_aim_no_hit_witness :
    Real.sqrt 0 = 0
      ∧ (⟨false, false, false, false, true, 400, 300, 0⟩ : Input ℝ).mouseX
          = (⟨Player.new, [Enemy.new ⟨405, 300⟩], 0, 0⟩ : Game ℝ).player.pos.x
      ∧ (⟨false, false, false, false, true, 400, 300, 0⟩ : Input ℝ).mouseY
          = (⟨Player.new, [Enemy.new ⟨405, 300⟩], 0, 0⟩ : Game ℝ).player.pos.y
      ∧ (firePhase Real.sqrt ⟨false, false, false, false, true, 400, 300, 0⟩
          (⟨Player.new, [Enemy.new ⟨405, 300⟩], 0, 0⟩ : Game ℝ)).enemies
        = [Enemy.new ⟨405, 300⟩] :=
  ⟨Real.sqrt_zero, rfl, rfl,
    (degenerate_aim_no_hit Real.sqrt ⟨false, false, false, false, true, 400, 300, 0⟩
      ⟨Player.new, [Enemy.new ⟨405, 300⟩], 0, 0⟩ Real.sqrt_zero rfl rfl).2.2.2.2⟩

/-! ## C13, C16, C17: normalize, steering, player speed -/

theorem length_pos_of_ne (v : Vec2 ℝ) (hv : v.x ≠ 0 ∨ v.y ≠ 0) : 0 < length Real.sqrt v := by
  unfold length
  rw [Real.sqrt_pos]
  rcases hv with h | h
  · have h1 := mul_self_pos.2 h
    have h2 := mul_self_nonneg v.y
    linarith
  · have h1 := mul_self_pos.2 h
    have h2 := mul_self_nonneg v.x
    linarith

theorem normalize_of_length_ne (v : Vec2 ℝ) (h : length Real.sqrt v ≠ 0) :
    normalize Real.sqrt v = ⟨v.x / length Real.sqrt v, v.y / length Real.sqrt v⟩ := by
  simp only [normalize, if_neg h]

theorem normalize_of_length_eq (v : Vec2 ℝ) (h : length Real.sqrt v = 0) :
    normalize Real.sqrt v = ⟨0, 0⟩ := by
  simp only [normalize, if_pos h]

/-- C13 as amended: `normalize` applied to the zero vector returns the zero
vector, taking the branch that performs no division, in exact arithmetic and in
binary32 alike (the binary32 length of (0,0) is 0 and `l == 0` holds); for every
non-zero `v`, in exact real arithmetic, the length is not zero and `normalize v`
is `v/|v|`. -/
theorem normalize_zero_and_unit :
    normalize Real.sqrt (⟨0, 0⟩ : Vec2 ℝ) = ⟨0, 0⟩
      ∧ length Real.sqrt (⟨0, 0⟩ : Vec2 ℝ) = 0
      ∧ (∀ v : Vec2 ℝ, (v.x ≠ 0 ∨ v.y ≠ 0) →
          length Real.sqrt v ≠ 0
            ∧ normalize Real.sqrt v = ⟨v.x / length Real.sqrt v, v.y / length Real.sqrt v⟩)
      ∧ F32.eq (B32.length ⟨F32.ofRat 0 1, F32.ofRat 0 1⟩) (F32.ofRat 0 1) = true
      ∧ (B32.normalize ⟨F32.ofRat 0 1, F32.ofRat 0 1⟩).x = F32.ofRat 0 1
      ∧ (B32.normalize ⟨F32.ofRat 0 1, F32.ofRat 0 1⟩).y = F32.ofRat 0 1 := by
  have h0 : length Real.sqrt (⟨0, 0⟩ : Vec2 ℝ) = 0 := by simp [length]
  refine ⟨normalize_of_length_eq _ h0, h0, fun v hv => ?_, by decide, by decide, by decide⟩
  have hpos := length_pos_of_ne v hv
  exact ⟨ne_of_gt hpos, normalize_of_length_ne v (ne_of_gt hpos)⟩

/-- Witness of C13 as amended at the vector (3,4), of length 5. -/
theorem normalize_zero_and_unit_witness :
    normalize Real.sqrt (⟨3, 4⟩ : Vec2 ℝ)
      = ⟨3 / length Real.sqrt (⟨3, 4⟩ : Vec2 ℝ), 4 / length Real.sqrt (⟨3, 4⟩ : Vec2 ℝ)⟩ :=
  (normalize_zero_and_unit.2.2.1 ⟨3, 4⟩ (Or.inl (by norm_num))).2

/-- C18: spawn placement.  When the next two values of `std::rand()` are `r1` and
`r2`, `spawnEnemy` appends exactly one enemy at the end of the list, at the
integer position `x = r1 mod 800` in [0,799] and `y = r2 mod 600` in [0,599], with
radius 18 and health 1; the enemies already present, the player and the cooldown
are unchanged. -/
theorem spawnEnemy_placement (rand : Nat → Nat) (g : Game K) (r1 r2 : Nat)
    (h1 : rand g.randCalls = r1) (h2 : rand (g.randCalls + 1) = r2) :
    (spawnEnemy rand g).enemies
        = g.enemies ++ [⟨⟨((r1 % 800 : Nat) : K), ((r2 % 600 : Nat) : K)⟩, 18, 1⟩]
      ∧ r1 % 800 ≤ 799 ∧ r2 % 600 ≤ 599
      ∧ (0 : K) ≤ ((r1 % 800 : Nat) : K) ∧ ((r1 % 800 : Nat) : K) ≤ 799
      ∧ (0 : K) ≤ ((r2 % 600 : Nat) : K) ∧ ((r2 % 600 : Nat) : K) ≤ 599
      ∧ (spawnEnemy rand g).enemies.length = g.enemies.length + 1
      ∧ (spawnEnemy rand g).player = g.player
      ∧ (spawnEnemy rand g).fireCooldown = g.fireCooldown := by
  have hx : r1 % 800 ≤ 799 := Nat.le_of_lt_succ (Nat.mod_lt _ (by decide))
  have hy : r2 % 600 ≤ 599 := Nat.le_of_lt_succ (Nat.mod_lt _ (by decide))
  refine ⟨?_, hx, hy, Nat.cast_nonneg _, ?_, Nat.cast_nonneg _, ?_, ?_, rfl, rfl⟩
  · simp only [spawnEnemy, h1, h2, WINDOW_W, WINDOW_H, Enemy.new]
  · exact_mod_cast hx
  · exact_mod_cast hy
  · simp [spawnEnemy]

/-- Witness of C18: `std::rand()` returns 12345 and then 6789. -/
theorem spawnEnemy_placement_witness :
    (fun k => if k = 0 then 12345 else 6789) (⟨Player.new, [], 0, 0⟩ : Game ℚ).randCalls = 12345
      ∧ (fun k => if k = 0 then 12345 else 6789)
          ((⟨Player.new, [], 0, 0⟩ : Game ℚ).randCalls + 1) = 6789
      ∧ (spawnEnemy (fun k => if k = 0 then 12345 else 6789)
          (⟨Player.new, [], 0, 0⟩ : Game ℚ)).enemies
        = [] ++ [⟨⟨((12345 % 800 : Nat) : ℚ), ((6789 % 600 : Nat) : ℚ)⟩, 18, 1⟩] :=
  ⟨rfl, rfl,
    (spawnEnemy_placement (fun k => if k = 0 then 12345 else 6789)
      (⟨Player.new, [], 0, 0⟩ : Game ℚ) 12345 6789 rfl rfl).1⟩

/-! ## C14, C19: the cooldown rule -/

/-- Counterexample to C14: cooldown 0, fire not held, `dt = 1`: no shot is fired
and the cooldown after the step is 0, not `0 - 1`. -/
theorem cooldown_not_always_decremented :
    shotFired (⟨false, false, false, false, false, 0, 0, 1⟩ : Input ℝ)
        (⟨Player.new, [], 0, 0⟩ : Game ℝ) = false
      ∧ (step Real.sqrt (fun _ => 0) ⟨false, false, false, false, false, 0, 0, 1⟩
          (⟨Player.new, [], 0, 0⟩ : Game ℝ)).fireCooldown = 0
      ∧ (step Real.sqrt (fun _ => 0) ⟨false, false, false, false, false, 0, 0, 1⟩
          (⟨Player.new, [], 0, 0⟩ : Game ℝ)).fireCooldown
        ≠ (⟨Player.new, [], 0, 0⟩ : Game ℝ).fireCooldown
          - (⟨false, false, false, false, false, 0, 0, 1⟩ : Input ℝ).dt := by
  have hcd : (step Real.sqrt (fun _ => 0) ⟨false, false, false, false, false, 0, 0, 1⟩
      (⟨Player.new, [], 0, 0⟩ : Game ℝ)).fireCooldown = 0 := by
    rw [step_fireCooldown]
    simp [shotFired, coolDown]
  refine ⟨by simp [shotFired], hcd, ?_⟩
  rw [hcd]
  norm_num

/-- C14 as amended: a step in which no shot is fired subtracts `dt` from the
cooldown `c` exactly when `c > 0` (the result `c - dt` is not clamped and may be
negative) and leaves a cooldown `c <= 0` unchanged. -/
theorem cooldown_guarded_decrement (sqrt : K → K) (rand : Nat → Nat) (inp : Input K)
    (g : Game K) (hno : shotFired inp g = false) :
    (0 < g.fireCooldown →
        (step sqrt rand inp g).fireCooldown = g.fireCooldown - inp.dt)
      ∧ (g.fireCooldown ≤ 0 → (step sqrt rand inp g).fireCooldown = g.fireCooldown) := by
  rw [step_fireCooldown, hno]
  simp only [Bool.false_eq_true, if_false, coolDown]
  constructor
  · intro h
    rw [if_pos h]
  · intro h
    rw [if_neg (not_lt.mpr h)]

/-- Witness of C14 as amended: cooldown 0.12, fire not held, `dt = 0.2`: the
cooldown after the step is `0.12 - 0.2`, below zero. -/
theorem cooldown_guarded_decrement_witness :
    shotFired (⟨false, false, false, false, false, 0, 0, 0.2⟩ : Input ℝ)
        (⟨Player.new, [], 0.12, 0⟩ : Game ℝ) = false
      ∧ (0 : ℝ) < (⟨Player.new, [], 0.12, 0⟩ : Game ℝ).fireCooldown
      ∧ (step Real.sqrt (fun _ => 0) ⟨false, false, false, false, false, 0, 0, 0.2⟩
          (⟨Player.new, [], 0.12, 0⟩ : Game ℝ)).fireCooldown
        = (⟨Player.new, [], 0.12, 0⟩ : Game ℝ).fireCooldown
          - (⟨false, false, false, false, false, 0, 0, 0.2⟩ : Input ℝ).dt :=
  have hno : shotFired (⟨false, false, false, false, false, 0, 0, 0.2⟩ : Input ℝ)
      (⟨Player.new, [], 0.12, 0⟩ : Game ℝ) = false := by simp [shotFired]
  have hpos : (0 : ℝ) < (⟨Player.new, [], 0.12, 0⟩ : Game ℝ).fireCooldown := by
    show (0 : ℝ) < 0.12
    norm_num
  ⟨hno, hpos,
    (cooldown_guarded_decrement Real.sqrt (fun _ => 0)
      ⟨false, false, false, false, false, 0, 0, 0.2⟩ ⟨Player.new, [], 0.12, 0⟩ hno).1 hpos⟩

/-- One frame keeps the two cooldown rules in step: from cooldowns that are equal
or both `<= 0`, the same decision is taken and the cooldowns are again equal or
both `<= 0`. -/
theorem rules_agree_step (sqrt : K → K) (rand : Nat → Nat) (inp : Input K) (g : Game K)
    (cd : K) (hdt : 0 ≤ inp.dt)
    (hinv : g.fireCooldown = cd ∨ (g.fireCooldown ≤ 0 ∧ cd ≤ 0)) :
    shotFired inp g = plainFired inp cd
      ∧ ((step sqrt rand inp g).fireCooldown = plainNext inp cd
        ∨ ((step sqrt rand inp g).fireCooldown ≤ 0 ∧ plainNext inp cd ≤ 0)) := by
  have hfire : shotFired inp g = plainFired inp cd := by
    simp only [shotFired, plainFired, coolDown]
    congr 1
    apply decide_eq_decide.2
    rcases hinv with heq | ⟨hg, hc⟩
    · rw [heq]
      by_cases hpos : 0 < cd
      · rw [if_pos hpos]
      · rw [if_neg hpos]
        have hle := not_lt.mp hpos
        exact ⟨fun _ => by linarith, fun _ => hle⟩
    · rw [if_neg (not_lt.mpr hg)]
      exact ⟨fun _ => by linarith, fun _ => hg⟩
  refine ⟨hfire, ?_⟩
  rw [step_fireCooldown, hfire]
  unfold plainNext
  by_cases hshot : plainFired inp cd = true
  · left
    rw [if_pos hshot, if_pos hshot]
  · rw [if_neg hshot, if_neg hshot]
    unfold coolDown
    rcases hinv with heq | ⟨hg, hc⟩
    · rw [heq]
      by_cases hpos : 0 < cd
      · left
        rw [if_pos hpos]
      · right
        rw [if_neg hpos]
        have hle := not_lt.mp hpos
        exact ⟨hle, by linarith⟩
    · right
      rw [if_neg (not_lt.mpr hg)]
      exact ⟨hg, by linarith⟩

theorem rules_agree_run (sqrt : K → K) (rand : Nat → Nat) (frames : List (Input K)) :
    ∀ (g : Game K) (cd : K), (∀ f ∈ frames, 0 ≤ f.dt) →
      (g.fireCooldown = cd ∨ (g.fireCooldown ≤ 0 ∧ cd ≤ 0)) →
      shots sqrt rand frames g = plainShots frames cd
        ∧ ((run sqrt rand frames g).fireCooldown = plainRun frames cd
          ∨ ((run sqrt rand frames g).fireCooldown ≤ 0 ∧ plainRun frames cd ≤ 0)) := by
  induction frames with
  | nil =>
    intro g cd _ hinv
    exact ⟨rfl, hinv⟩
  | cons f rest ih =>
    intro g cd hdt hinv
    have hstep := rules_agree_step sqrt rand f g cd (hdt f (by simp)) hinv
    have hrest := ih (step sqrt rand f g) (plainNext f cd)
      (fun f2 hf2 => hdt f2 (by simp [hf2])) hstep.2
    refine ⟨?_, hrest.2⟩
    simp only [shots, plainShots, hstep.1, hrest.1]

/-- C19: the two cooldown rules are equivalent.  For every initial cooldown, every
sequence of frames with `dt >= 0` and every sequence of fire-held flags, the code
(guarded decrement, line 160) and the unconditional decrement fire on exactly the
same frames, and after the frames the two cooldown values are equal or both
`<= 0`. -/
theorem cooldown_rules_fire_alike (sqrt : K → K) (rand : Nat → Nat)
    (frames : List (Input K)) (g : Game K) (hdt : ∀ f ∈ frames, 0 ≤ f.dt) :
    shots sqrt rand frames g = plainShots frames g.fireCooldown
      ∧ ((run sqrt rand frames g).fireCooldown = plainRun frames g.fireCooldown
        ∨ ((run sqrt rand frames g).fireCooldown ≤ 0
            ∧ plainRun frames g.fireCooldown ≤ 0)) :=
  rules_agree_run sqrt rand frames g g.fireCooldown hdt (Or.inl rfl)

/-- Witness of C19: two frames of 0.1 s without fire held from cooldown 0.05; the
code keeps the cooldown at -0.05, the unconditional rule takes it to -0.15. -/
theorem cooldown_rules_fire_alike_witness :
    (∀ f ∈ [(⟨false, false, false, false, false, 0, 0, 0.1⟩ : Input ℝ),
        ⟨false, false, false, false, false, 0, 0, 0.1⟩], 0 ≤ f.dt)
      ∧ shots Real.sqrt (fun _ => 0)
          [(⟨false, false, false, false, false, 0, 0, 0.1⟩ : Input ℝ),
            ⟨false, false, false, false, false, 0, 0, 0.1⟩]
          (⟨Player.new, [], 0.05, 0⟩ : Game ℝ)
        = plainShots [(⟨false, false, false, false, false, 0, 0, 0.1⟩ : Input ℝ),
            ⟨false, false, false, false, false, 0, 0, 0.1⟩]
          (⟨Player.new, [], 0.05, 0⟩ : Game ℝ).fireCooldown :=
  have hdt : ∀ f ∈ [(⟨false, false, false, false, false, 0, 0, 0.1⟩ : Input ℝ),
      ⟨false, false, false, false, false, 0, 0, 0.1⟩], 0 ≤ f.dt := by
    intro f hf
    simp only [List.mem_cons, List.mem_singleton, List.not_mem_nil, or_false, or_self] at hf
    rw [hf]
    norm_num
  ⟨hdt, (cooldown_rules_fire_alike Real.sqrt (fun _ => 0) _ _ hdt).1⟩

/-! ## C12: leftward drive -/

theorem run_append (sqrt : K → K) (rand : Nat → Nat) (a b : List (Input K)) :
    ∀ g : Game K, run sqrt rand (a ++ b) g = run sqrt rand b (run sqrt rand a g) := by
  induction a with
  | nil =>
    intro g
    rfl
  | cons f rest ih =>
    intro g
    exact ih (step sqrt rand f g)

/-- A shot changes nothing, or lowers the health of one enemy whose `t` passes
the test against the initial `bestT = farT + 1`. -/
theorem hitscan_cases_valid (sqrt : K → K) (p d : Vec2 K) (es : List (Enemy K)) :
    hitscan sqrt p d es = es
      ∨ ∃ (k : Nat) (ek : Enemy K) (v : K), es[k]? = some ek
          ∧ hitT sqrt p d ek = FVal.fin v ∧ 0 ≤ v ∧ v < farT + 1
          ∧ hitscan sqrt p d es = es.set k { ek with hp := ek.hp - 1 } := by
  rcases scanLoop_spec sqrt p d es 0 (farT + 1) (-1) with
    ⟨_, hres⟩ | ⟨k, ek, v, hk, hv, hv0, hvB, hres, _⟩
  · left
    simp [hitscan, bestIdx, hres]
  · right
    refine ⟨k, ek, v, hk, hv, hv0, hvB, ?_⟩
    have hidx : bestIdx sqrt p d es = Int.ofNat k := by
      simp [bestIdx, hres]
    have hne : (Int.ofNat k) ≠ -1 := by
      intro h
      have h0 : (0 : Int) ≤ Int.ofNat k := Int.ofNat_nonneg k
      rw [h] at h0
      exact absurd h0 (by decide)
    have htn : (Int.ofNat k).toNat = k := rfl
    simp only [hitscan, hidx, hne, ne_eq, not_false_eq_true, if_true, htn, damage, hk]

/-- A frame in which the cutoff matters: player at (400,300), one enemy at
(400,200), a long frame (`dt = 4237/120` s, during which the enemy overshoots the
player and ends at (400, 2318.5)), fire held with the pointer at (400,600).  The
ray meets the enemy at t = 2000.5 and the fire phase takes its health to 0. -/
theorem long_frame_shot :
    (steerPhase Real.sqrt ⟨false, false, false, false, true, 400, 600, 4237 / 120⟩
        (movePhase Real.sqrt ⟨false, false, false, false, true, 400, 600, 4237 / 120⟩
          (⟨Player.new, [Enemy.new ⟨400, 200⟩], 0, 0⟩ : Game ℝ)))
        = ⟨Player.new, [Enemy.new ⟨400, 2318.5⟩], 0, 0⟩
      ∧ ray_vs_circle Real.sqrt (⟨400, 300⟩ : Vec2 ℝ) ⟨0, 1⟩ ⟨400, 2318.5⟩ 18
        = FVal.fin 2000.5
      ∧ (firePhase Real.sqrt ⟨false, false, false, false, true, 400, 600, 4237 / 120⟩
          (⟨Player.new, [Enemy.new ⟨400, 2318.5⟩], 0, 0⟩ : Game ℝ)).enemies
        = [⟨⟨400, 2318.5⟩, 18, 0⟩] := by
  have h36 : Real.sqrt 1296 = 36 := sqrt_of_mul_self 1296 36 (by norm_num) (by norm_num)
  have h100 : Real.sqrt 10000 = 100 := sqrt_of_mul_self _ 100 (by norm_num) (by norm_num)
  have h300 : Real.sqrt 90000 = 300 := sqrt_of_mul_self _ 300 (by norm_num) (by norm_num)
  have hmove : movePhase Real.sqrt ⟨false, false, false, false, true, 400, 600, 4237 / 120⟩
      (⟨Player.new, [Enemy.new ⟨400, 200⟩], 0, 0⟩ : Game ℝ)
      = ⟨Player.new, [Enemy.new ⟨400, 200⟩], 0, 0⟩ := by
    simp [movePhase, moveDelta, moveIntent, length, clampToWindow, Player.new,
      WINDOW_W, WINDOW_H, Vec2.add_def, Vec2.scale_def]
    norm_num
  have hsteer : steerPhase Real.sqrt ⟨false, false, false, false, true, 400, 600, 4237 / 120⟩
      (⟨Player.new, [Enemy.new ⟨400, 200⟩], 0, 0⟩ : Game ℝ)
      = ⟨Player.new, [Enemy.new ⟨400, 2318.5⟩], 0, 0⟩ := by
    simp only [steerPhase, steerEnemy, Enemy.new, Player.new, normalize, length,
      Vec2.add_def, Vec2.scale_def, Vec2.sub_def, List.map]
    norm_num [h100]
  have hray : ray_vs_circle Real.sqrt (⟨400, 300⟩ : Vec2 ℝ) ⟨0, 1⟩ ⟨400, 2318.5⟩ 18
      = FVal.fin 2000.5 := by
    rw [ray_vs_circle_unit _ _ _ _ (by norm_num)]
    norm_num [quadB, quadC, h36]
  have hd : normalize Real.sqrt ((⟨400, 600⟩ : Vec2 ℝ) - ⟨400, 300⟩) = ⟨0, 1⟩ := by
    simp only [normalize, length, Vec2.sub_def]
    norm_num [h300]
  have hh : hitscan Real.sqrt (⟨400, 300⟩ : Vec2 ℝ) ⟨0, 1⟩ [Enemy.new ⟨400, 2318.5⟩]
      = [⟨⟨400, 2318.5⟩, 18, 0⟩] := by
    simp [hitscan, bestIdx, scanLoop, Enemy.new, hray, FVal.ge0, FVal.lt, farT, damage]
    norm_num
  refine ⟨by rw [hmove, hsteer], hray, ?_⟩
  simp only [Player.new] at hd hh ⊢
  simp [firePhase, coolDown, hd, hh]

/-- Counterexample to C15: from (0,0) in direction (1,0), an enemy of radius 18
centred at (2018.5, 0) is met at t = 2000.5, which is not below 2000, and the shot
takes its health from 1 to 0.  The same happens inside one frame of the main loop:
after a frame of 4237/120 s the enemy spawned at (400,200) has overshot the player
at (400,300) to (400, 2318.5), and the shot fired in that frame toward (400,600)
meets it at t = 2000.5 and takes its health to 0. -/
theorem cutoff_is_not_2000 :
    ray_vs_circle Real.sqrt (⟨0, 0⟩ : Vec2 ℝ) ⟨1, 0⟩ ⟨2018.5, 0⟩ 18 = FVal.fin 2000.5
      ∧ ¬ ((2000.5 : ℝ) < 2000)
      ∧ hitscan Real.sqrt (⟨0, 0⟩ : Vec2 ℝ) ⟨1, 0⟩ [Enemy.new ⟨2018.5, 0⟩]
        = [⟨⟨2018.5, 0⟩, 18, 0⟩]
      ∧ ray_vs_circle Real.sqrt (⟨400, 300⟩ : Vec2 ℝ) ⟨0, 1⟩ ⟨400, 2318.5⟩ 18
        = FVal.fin 2000.5
      ∧ (firePhase Real.sqrt ⟨false, false, false, false, true, 400, 600, 4237 / 120⟩
          (steerPhase Real.sqrt ⟨false, false, false, false, true, 400, 600, 4237 / 120⟩
            (movePhase Real.sqrt ⟨false, false, false, false, true, 400, 600, 4237 / 120⟩
              (⟨Player.new, [Enemy.new ⟨400, 200⟩], 0, 0⟩ : Game ℝ)))).enemies
        = [⟨⟨400, 2318.5⟩, 18, 0⟩] := by
  have h36 : Real.sqrt 1296 = 36 := sqrt_of_mul_self 1296 36 (by norm_num) (by norm_num)
  have hray : ray_vs_circle Real.sqrt (⟨0, 0⟩ : Vec2 ℝ) ⟨1, 0⟩ ⟨2018.5, 0⟩ 18
      = FVal.fin 2000.5 := by
    rw [ray_vs_circle_unit _ _ _ _ (by norm_num)]
    norm_num [quadB, quadC, h36]
  refine ⟨hray, by norm_num, ?_, long_frame_shot.2.1, ?_⟩
  · simp [hitscan, bestIdx, scanLoop, Enemy.new, hray, FVal.ge0, FVal.lt, farT, damage]
    norm_num
  · rw [long_frame_shot.1]
    exact long_frame_shot.2.2

/-- C15 as amended: in every shot an enemy is damaged only if the `t` returned for
it by `ray_vs_circle` is a finite value with `0 <= t < 2001` (the initial
`bestT = farT + 1`); an enemy whose `t` is not below 2001 is left as it is. -/
theorem damage_only_below_cutoff (sqrt : K → K) (p d : Vec2 K) (es : List (Enemy K))
    (k : Nat) (e e2 : Enemy K) (he : es[k]? = some e)
    (he2 : (hitscan sqrt p d es)[k]? = some e2) :
    (e2.hp ≠ e.hp → ∃ v, hitT sqrt p d e = FVal.fin v ∧ 0 ≤ v ∧ v < 2001)
      ∧ ((∀ v, hitT sqrt p d e = FVal.fin v → 2001 ≤ v) → e2 = e) := by
  have hfar : (farT : K) + 1 = 2001 := by
    unfold farT
    norm_num
  rcases hitscan_cases_valid sqrt p d es with hsame | ⟨k0, ek, v, hk0, hv, hv0, hvB, hset⟩
  · rw [hsame, he] at he2
    have heq : e = e2 := Option.some.inj he2
    exact ⟨fun hne => absurd (congrArg Enemy.hp heq).symm hne, fun _ => heq.symm⟩
  · rw [hset] at he2
    rw [hfar] at hvB
    by_cases hk : k0 = k
    · subst hk
      rw [hk0] at he
      have hek : ek = e := Option.some.inj he
      rw [hek] at hv
      exact ⟨fun _ => ⟨v, hv, hv0, hvB⟩,
        fun hfar2 => absurd (hfar2 v hv) (not_le.mpr hvB)⟩
    · rw [List.getElem?_set_ne hk, he] at he2
      have heq : e = e2 := Option.some.inj he2
      exact ⟨fun hne => absurd (congrArg Enemy.hp heq).symm hne, fun _ => heq.symm⟩

/-- Witness of C15 as amended: the shot of the specification's example, whose
enemy is damaged at t = 82. -/
theorem damage_only_below_cutoff_witness :
    [Enemy.new (⟨400, 200⟩ : Vec2 ℝ)][0]? = some (Enemy.new ⟨400, 200⟩)
      ∧ (hitscan Real.sqrt (⟨400, 300⟩ : Vec2 ℝ) ⟨0, -1⟩ [Enemy.new ⟨400, 200⟩])[0]?
        = some ⟨⟨400, 200⟩, 18, 0⟩
      ∧ (⟨⟨400, 200⟩, 18, 0⟩ : Enemy ℝ).hp ≠ (Enemy.new (⟨400, 200⟩ : Vec2 ℝ)).hp
      ∧ ∃ v, hitT Real.sqrt (⟨400, 300⟩ : Vec2 ℝ) ⟨0, -1⟩ (Enemy.new ⟨400, 200⟩) = FVal.fin v
          ∧ 0 ≤ v ∧ v < 2001 :=
  have h1 : [Enemy.new (⟨400, 200⟩ : Vec2 ℝ)][0]? = some (Enemy.new ⟨400, 200⟩) := rfl
  have h2 : (hitscan Real.sqrt (⟨400, 300⟩ : Vec2 ℝ) ⟨0, -1⟩ [Enemy.new ⟨400, 200⟩])[0]?
      = some ⟨⟨400, 200⟩, 18, 0⟩ := by
    rw [hitscan_example]
    rfl
  have h3 : (⟨⟨400, 200⟩, 18, 0⟩ : Enemy ℝ).hp ≠ (Enemy.new (⟨400, 200⟩ : Vec2 ℝ)).hp := by
    show (0 : ℝ) ≠ 1
    norm_num
  ⟨h1, h2, h3,
    (damage_only_below_cutoff Real.sqrt ⟨400, 300⟩ ⟨0, -1⟩ [Enemy.new ⟨400, 200⟩] 0
      (Enemy.new ⟨400, 200⟩) ⟨⟨400, 200⟩, 18, 0⟩ h1 h2).1 h3⟩

/-! ## Binary32: where rounding, underflow and overflow change the outcome -/

/-- The exact value of a binary32 number given by its count of units. -/
theorem F32.toRat_of_fin (x : F32) (k : Int) (q : ℚ) (h : x = F32.fin k)
    (hq : (k : ℚ) = q * 2 ^ 149) : x.toRat = q := by
  rw [h]
  simp only [F32.toRat]
  rw [hq]
  field_simp

/-- Known values of the binary32 embedding: `0.12f` is `16106127 * 2^-27`, `1/3`
rounds to `11184811 * 2^-25`, the length of (1,-1) is the float nearest to the
square root of 2, `11863283 * 2^-23`, and the shot of the specification's example
meets the enemy at t = 82 as in exact arithmetic.  Ties go to the even neighbour
(`2^24 + 1` gives `2^24`, `2^24 + 3` gives `2^24 + 4`, half the least subnormal
gives 0 and three halves of it give two), the square root of the least subnormal
is `11863283 * 2^-98`, and `2^127 * 2` overflows to infinity. -/
theorem binary32_known_values :
    F32.ofRat 12 100 = F32.fin (16106127 * 2 ^ 122)
      ∧ F32.div (F32.ofRat 1 1) (F32.ofRat 3 1) = F32.fin (11184811 * 2 ^ 124)
      ∧ B32.length ⟨F32.ofRat 1 1, F32.ofRat (-1) 1⟩ = F32.fin (11863283 * 2 ^ 126)
      ∧ B32.ray_vs_circle ⟨F32.ofRat 400 1, F32.ofRat 300 1⟩ ⟨F32.ofRat 0 1, F32.ofRat (-1) 1⟩
          ⟨F32.ofRat 400 1, F32.ofRat 200 1⟩ (F32.ofRat 18 1) = F32.ofRat 82 1
      ∧ F32.add (F32.ofRat 16777216 1) (F32.ofRat 1 1) = F32.ofRat 16777216 1
      ∧ F32.add (F32.ofRat 16777218 1) (F32.ofRat 1 1) = F32.ofRat 16777220 1
      ∧ F32.mul (F32.fin 1) (F32.ofRat 1 2) = F32.fin 0
      ∧ F32.mul (F32.fin 3) (F32.ofRat 1 2) = F32.fin 2
      ∧ F32.sqrt (F32.fin 1) = F32.fin (11863283 * 2 ^ 51)
      ∧ F32.mul (F32.ofRat (2 ^ 127) 1) (F32.ofRat 2 1) = F32.pinf := by
  refine ⟨by decide, by decide, by decide, by decide, by decide, by decide, by decide,
    by decide, by decide, by decide⟩

/-- Counterexample to C3 in binary32: p = (9*2^-11, 18), c = (0, 7*2^-23), r = 18,
d = (1,0).  On the exact values of these floats the origin is strictly inside the
circle and d has length 1; the binary32 evaluation of lines 50-57 rounds `cterm`
to a positive number, the discriminant is negative, and the code returns -1. -/
theorem inside_miss_binary32 :
    (F32.ofRat 9 2048).toRat = 9 / 2048
      ∧ (F32.ofRat 18 1).toRat = 18
      ∧ (F32.ofRat 0 1).toRat = 0
      ∧ (F32.ofRat 7 8388608).toRat = 7 / 8388608
      ∧ (F32.ofRat 1 1).toRat = 1
      ∧ ((9 / 2048 - 0 : ℚ) ^ 2 + (18 - 7 / 8388608) ^ 2 < 18 ^ 2)
      ∧ ((1 : ℚ) ^ 2 + 0 ^ 2 = 1)
      ∧ B32.ray_vs_circle ⟨F32.ofRat 9 2048, F32.ofRat 18 1⟩ ⟨F32.ofRat 1 1, F32.ofRat 0 1⟩
          ⟨F32.ofRat 0 1, F32.ofRat 7 8388608⟩ (F32.ofRat 18 1) = F32.ofRat (-1) 1 := by
  refine ⟨F32.toRat_of_fin _ (9 * 2 ^ 138) _ (by decide) (by norm_num),
    F32.toRat_of_fin _ (18 * 2 ^ 149) _ (by decide) (by norm_num),
    F32.toRat_of_fin _ 0 _ (by decide) (by norm_num),
    F32.toRat_of_fin _ (7 * 2 ^ 126) _ (by decide) (by norm_num),
    F32.toRat_of_fin _ (2 ^ 149) _ (by decide) (by norm_num),
    by norm_num, by norm_num, by decide⟩

/-- Counterexample to C4 in binary32: p = (400, 18), c = (400, -2^-25), r = 18.
On the exact values `|p - c| = 18 + 2^-25 > r` and `(p - c)/|p - c| = (0,1)`, which
is also what the binary32 `normalize` returns for `p - c`.  In binary32 `fy` rounds
to 18, `cterm` is 0, the roots are -36 and 0, and the code returns the hit t = 0
instead of -1. -/
theorem away_hit_binary32 :
    (F32.ofRat 400 1).toRat = 400
      ∧ (F32.ofRat 18 1).toRat = 18
      ∧ (F32.ofRat (-1) 33554432).toRat = -1 / 33554432
      ∧ (F32.ofRat 0 1).toRat = 0
      ∧ (F32.ofRat 1 1).toRat = 1
      ∧ ((18 : ℚ) ^ 2 < (400 - 400) ^ 2 + (18 - -1 / 33554432) ^ 2)
      ∧ ((18 + 1 / 33554432 : ℚ) ^ 2 = (400 - 400) ^ 2 + (18 - -1 / 33554432) ^ 2)
      ∧ ((0 : ℚ) = (400 - 400) / (18 + 1 / 33554432))
      ∧ ((1 : ℚ) = (18 - -1 / 33554432) / (18 + 1 / 33554432))
      ∧ (B32.normalize (B32.vsub ⟨F32.ofRat 400 1, F32.ofRat 18 1⟩
          ⟨F32.ofRat 400 1, F32.ofRat (-1) 33554432⟩)).x = F32.ofRat 0 1
      ∧ (B32.normalize (B32.vsub ⟨F32.ofRat 400 1, F32.ofRat 18 1⟩
          ⟨F32.ofRat 400 1, F32.ofRat (-1) 33554432⟩)).y = F32.ofRat 1 1
      ∧ B32.ray_vs_circle ⟨F32.ofRat 400 1, F32.ofRat 18 1⟩ ⟨F32.ofRat 0 1, F32.ofRat 1 1⟩
          ⟨F32.ofRat 400 1, F32.ofRat (-1) 33554432⟩ (F32.ofRat 18 1) = F32.ofRat 0 1
      ∧ F32.ofRat 0 1 ≠ F32.ofRat (-1) 1 := by
  refine ⟨F32.toRat_of_fin _ (400 * 2 ^ 149) _ (by decide) (by norm_num),
    F32.toRat_of_fin _ (18 * 2 ^ 149) _ (by decide) (by norm_num),
    F32.toRat_of_fin _ (-(2 ^ 124)) _ (by decide) (by norm_num),
    F32.toRat_of_fin _ 0 _ (by decide) (by norm_num),
    F32.toRat_of_fin _ (2 ^ 149) _ (by decide) (by norm_num),
    by norm_num, by norm_num, by norm_num, by norm_num, by decide, by decide, by decide,
    by decide⟩

/-- Counterexample to C6 in binary32.  From the initial cooldown 0 with fire held
in every frame: at `dt = 0.02f` the first frame fires, the next five do not, and
the sixth does, although the six frames after the shot have accumulated less
than 0.12; at `dt = 0.006f` the twentieth frame after the shot does not fire,
although the twenty frames have accumulated more than 0.12. -/
theorem cooldown_gating_binary32 :
    (F32.ofRat 2 100).toRat = 5368709 / 268435456
      ∧ (0 : ℚ) ≤ 5368709 / 268435456
      ∧ (6 * (5368709 / 268435456) : ℚ) < 12 / 100
      ∧ B32.shots (List.replicate 7
          ⟨false, false, false, false, true, F32.ofRat 0 1, F32.ofRat 0 1, F32.ofRat 2 100⟩)
          (F32.ofRat 0 1) = [true, false, false, false, false, false, true]
      ∧ (F32.ofRat 6 1000).toRat = 6442451 / 1073741824
      ∧ (0 : ℚ) ≤ 6442451 / 1073741824
      ∧ (12 / 100 : ℚ) ≤ 20 * (6442451 / 1073741824)
      ∧ B32.shots (List.replicate 21
          ⟨false, false, false, false, true, F32.ofRat 0 1, F32.ofRat 0 1, F32.ofRat 6 1000⟩)
          (F32.ofRat 0 1) = true :: List.replicate 20 false := by
  refine ⟨F32.toRat_of_fin _ (5368709 * 2 ^ 121) _ (by decide) (by norm_num),
    by norm_num, by norm_num, by decide,
    F32.toRat_of_fin _ (6442451 * 2 ^ 119) _ (by decide) (by norm_num),
    by norm_num, by norm_num, by decide⟩

/-- Counterexample to C7 in binary32: player at (400,300) with speed 280, no key
held, `dt = 2^121` (a finite float).  `speed * dt` overflows to infinity, `0 * inf`
is NaN, no clamping comparison holds for NaN, and the position after the movement
is (NaN, NaN): neither `0 <= x` nor `x <= 800` holds. -/
theorem arena_nan_binary32 :
    F32.ofRat (2 ^ 121) 1 = F32.fin (2 ^ 270)
      ∧ (B32.movePhase
          ⟨false, false, false, false, false, F32.ofRat 0 1, F32.ofRat 0 1, F32.ofRat (2 ^ 121) 1⟩
          ⟨⟨F32.ofRat 400 1, F32.ofRat 300 1⟩, F32.ofRat 12 1, F32.ofRat 280 1⟩).pos.x = F32.nan
      ∧ (B32.movePhase
          ⟨false, false, false, false, false, F32.ofRat 0 1, F32.ofRat 0 1, F32.ofRat (2 ^ 121) 1⟩
          ⟨⟨F32.ofRat 400 1, F32.ofRat 300 1⟩, F32.ofRat 12 1, F32.ofRat 280 1⟩).pos.y = F32.nan
      ∧ F32.le (F32.ofRat 0 1) F32.nan = false
      ∧ F32.le F32.nan (F32.ofRat 800 1) = false
      ∧ F32.le F32.nan (F32.ofRat 600 1) = false := by
  refine ⟨by decide, by decide, by decide, by decide, by decide, by decide⟩

/-- Counterexample to C13 in binary32: the non-zero vector `(2^-100, 0)` has the
square `2^-200`, which underflows to 0, so `l == 0` holds and `normalize` returns
(0,0) instead of `v/|v| = (1,0)`; for `(2^64, 0)` the square overflows, the length
is infinite and the quotient is 0 again. -/
theorem normalize_underflow_binary32 :
    (F32.ofRat 1 (2 ^ 100)).toRat = 1 / 2 ^ 100
      ∧ (B32.normalize ⟨F32.ofRat 1 (2 ^ 100), F32.ofRat 0 1⟩).x = F32.ofRat 0 1
      ∧ (B32.normalize ⟨F32.ofRat 1 (2 ^ 100), F32.ofRat 0 1⟩).y = F32.ofRat 0 1
      ∧ (F32.ofRat (2 ^ 64) 1).toRat = 2 ^ 64
      ∧ (B32.normalize ⟨F32.ofRat (2 ^ 64) 1, F32.ofRat 0 1⟩).x = F32.ofRat 0 1
      ∧ (B32.normalize ⟨F32.ofRat (2 ^ 64) 1, F32.ofRat 0 1⟩).y = F32.ofRat 0 1
      ∧ F32.ofRat 0 1 ≠ F32.ofRat 1 1 := by
  refine ⟨F32.toRat_of_fin _ (2 ^ 49) _ (by decide) (by norm_num), by decide, by decide,
    F32.toRat_of_fin _ (2 ^ 213) _ (by decide) (by norm_num), by decide, by decide,
    by decide⟩

end TopDownShooter
